import Mathlib

/-!
Shallow embedding of busybox micro lpd (printutils/lpd.c) and proofs about it.

Bytes are modelled as `Nat`; C strings are `List Nat` of non-zero bytes, with
explicit truncation at the first NUL where the C code's string functions stop.
The session's filesystem effects (queue-directory files, sink appends) are
tracked explicitly in a session state record.
-/

namespace Lpd

/-- ASCII `isalnum` in the C locale (lpd.c line 74 via ctype). -/
def isalnumB (c : Nat) : Bool :=
  (48 ≤ c && c ≤ 57) || (65 ≤ c && c ≤ 90) || (97 ≤ c && c ≤ 122)

/-- ASCII `isalpha` in the C locale (lpd.c line 97 via ctype). -/
def isalphaB (c : Nat) : Bool :=
  (65 ≤ c && c ≤ 90) || (97 ≤ c && c ≤ 122)

/-- Characters kept by `sane` (lpd.c line 74): alphanumerics, `-` (45), `_` (95). -/
def saneKeep (c : Nat) : Bool :=
  isalnumB c || c == 45 || c == 95

/-- Embedding of `sane` (lpd.c lines 69-81): walks the C string (stopping at the
first NUL, as `while (*s)` does) and compacts it in place, keeping exactly the
characters satisfying `saneKeep`. -/
def sane (s : List Nat) : List Nat :=
  (s.takeWhile (fun c => c ≠ 0)).filter saneKeep

theorem dropWhile_length_le (p : Nat → Bool) :
    ∀ l : List Nat, (l.dropWhile p).length ≤ l.length := by
  intro l
  induction l with
  | nil => simp
  | cons c t ih =>
    by_cases h : p c = true
    · simp [List.dropWhile, h]
      omega
    · simp [List.dropWhile, h]

/-- Embedding of the control-file parse loop of `exec_helper` (lpd.c lines
96-107): while `strchr(q, '\n')` finds a newline (`strchr` stops at the first
NUL, hence the `takeWhile`) and the first character of the current position is
alphabetic, emit the binding (first char, rest of line) and continue after the
newline. -/
def parseControl : List Nat → List (Nat × List Nat)
  | [] => []
  | c :: q =>
    if isalphaB c = true ∧ 10 ∈ (c :: q).takeWhile (fun b => b ≠ 0) then
      (c, q.takeWhile (fun b => b ≠ 10)) ::
        parseControl ((q.dropWhile (fun b => b ≠ 10)).tail)
    else []
termination_by q => q.length
decreasing_by
  simp only [List.length_cons]
  have h1 : (q.dropWhile (fun b => b ≠ 10)).length ≤ q.length :=
    dropWhile_length_le _ q
  have h2 : ((q.dropWhile (fun b => b ≠ 10)).tail).length ≤
      (q.dropWhile (fun b => b ≠ 10)).length := by
    cases q.dropWhile (fun b => b ≠ 10) <;> simp
  omega

/-- Modelled from the spec: the Command Reader helper `xmalloc_reads` (libbb,
not under src/) reads one byte at a time up to a size bound, stopping at (and
consuming, without storing) a newline.  Returns (line, remaining stream). -/
def readLineGo : Nat → List Nat → List Nat × List Nat
  | 0, input => ([], input)
  | _ + 1, [] => ([], [])
  | m + 1, c :: rest =>
    if c = 10 then ([], rest)
    else
      let r := readLineGo m rest
      (c :: r.1, r.2)

/-- Modelled from the spec: `xmalloc_read_stdin` (lpd.c lines 116-121 calling
libbb `xmalloc_reads`, the latter not under src/): NULL (none) exactly when the
stream is already at end-of-stream, otherwise one line bounded by 4 KB. -/
def readStdin (input : List Nat) : Option (List Nat × List Nat) :=
  if input.isEmpty then none else some (readLineGo 4096 input)

/-- Modelled from the spec: `bb_strtou(s, NULL, 10)` (libbb, not under src/)
followed by lpd.c's `errno || expected_len < 0` check: the digits field is
accepted exactly when it is a nonempty all-decimal string whose value fits in a
nonnegative C int. -/
def parseLen (ds : List Nat) : Option Nat :=
  if ds ≠ [] ∧ ds.all (fun c => 48 ≤ c && c ≤ 57) ∧
      ds.foldl (fun acc c => acc * 10 + (c - 48)) 0 ≤ 2 ^ 31 - 1 then
    some (ds.foldl (fun acc c => acc * 10 + (c - 48)) 0)
  else none

/-- Diagnostics and ready-signals written by the session to the peer
(lpd.c lines 146, 171, 191, 200, 211, 217, 226 via `open3_or_warn`, 241, 266). -/
inductive Msg
  | ack
  | unsupported (b : Nat)
  | duplicated
  | badFname
  | badLength
  | tooBig
  | cantOpen (name : List Nat)
  | mismatch (expected actual : Nat)
deriving DecidableEq, Repr

/-- One file of the queue directory.  `declared` is ghost bookkeeping recording
the declared length passed to the transfer that created the file. -/
structure SpoolFile where
  name : List Nat
  declared : Nat
  content : List Nat
  mode600 : Bool
deriving DecidableEq, Repr

/-- The destination descriptor of one transfer (lpd.c lines 222-236):
a freshly created queue-directory file, the sink target, or fd -1 (discard). -/
inductive Target
  | file (name : List Nat)
  | sinkT
  | discard
deriving DecidableEq, Repr

/-- Session state (lpd.c lpd_main locals plus the session's filesystem
effects).  `created`, `receipts` and `reached6` are ghost observations:
names created by this session, the subcommand bytes of completed receipts,
and whether the completion value 6 was ever reached. -/
structure Sess where
  spooling : Nat
  seen : Nat
  fname0 : Option (List Nat)
  fname1 : Option (List Nat)
  fs : List SpoolFile
  sink : List Nat
  output : List Msg
  created : List (List Nat)
  receipts : List Nat
  reached6 : Bool
deriving DecidableEq, Repr

/-- Environment of one session: whether the sanitized queue name is a
directory (`chdir` succeeds), whether a helper program was configured
(`*argv` after the queue argument), and whether the sink target can be
opened for append. -/
structure Config where
  queueIsDir : Bool
  helper : Bool
  sinkExists : Bool
deriving DecidableEq, Repr

/-- How a session ends.  `success`/`failure` are EXIT_SUCCESS/EXIT_FAILURE
from lpd_main; `died` is `xopen` failing on the sink (exits 1); `helperRun`
is `exec_helper` replacing the process (carrying the environment bindings it
set, innermost-first overridden by later ones does not arise — listed in the
order the code sets them); `crash` marks undefined behaviour (NULL
dereference), never reachable from the entry point on the paths the claims
concern. -/
inductive Outcome
  | success
  | failure
  | died
  | helperRun (env : List (List Nat × List Nat))
  | crash
deriving DecidableEq, Repr

/-- The process exit status of an outcome, `none` when the process image was
replaced (or UB). -/
def exitCode : Outcome → Option Nat
  | .success => some 0
  | .failure => some 1
  | .died => some 1
  | .helperRun _ => none
  | .crash => none

/-- Result of one loop iteration: session over, or continue with the rest of
the input stream. -/
inductive StepRes
  | done (st : Sess) (oc : Outcome)
  | cont (st : Sess) (rest : List Nat)
deriving DecidableEq, Repr

def addMsg (st : Sess) (m : Msg) : Sess :=
  { st with output := st.output ++ [m] }

/-- Embedding of the `err_exit` cleanup (lpd.c lines 272-279): in spooling
mode, unlink whichever of the two recorded filenames are set. -/
def cleanup (st : Sess) : Sess :=
  if st.spooling ≠ 0 then
    let fs1 := match st.fname0 with
      | some n => st.fs.filter (fun f => f.name ≠ n)
      | none => st.fs
    let fs2 := match st.fname1 with
      | some n => fs1.filter (fun f => f.name ≠ n)
      | none => fs1
    { st with fs := fs2 }
  else st

/-- Writing the copied bytes to the open descriptor (lpd.c line 239, via the
libbb copy routine): append to the named file, append to the sink, or
discard (fd -1). -/
def writeTarget (st : Sess) (tgt : Target) (payload : List Nat) : Sess :=
  match tgt with
  | .file fn =>
    { st with fs := st.fs.map (fun f =>
        if f.name = fn then { f with content := f.content ++ payload } else f) }
  | .sinkT => { st with sink := st.sink ++ payload }
  | .discard => st

/-- `fchmod(fd, 0600)` on the just-transferred file (lpd.c line 255). -/
def chmod600 (st : Sess) (tgt : Target) : Sess :=
  match tgt with
  | .file fn =>
    { st with fs := st.fs.map (fun f =>
        if f.name = fn then { f with mode600 := true } else f) }
  | _ => st

/-- `unlink` of one name in the queue directory. -/
def unlinkFs (fs : List SpoolFile) (nm : List Nat) : List SpoolFile :=
  fs.filter (fun f => f.name ≠ nm)

/-- The name DATAFILE as bytes. -/
def dfVar : List Nat := [68, 65, 84, 65, 70, 73, 76, 69]

/-- The environment bindings set by `exec_helper` (lpd.c lines 94-107), in
the order the code sets them: DATAFILE = actual stored datafile name, then
one single-letter binding per parsed control-file line. -/
def ctrlEnv (content : List Nat) (dataName : List Nat) :
    List (List Nat × List Nat) :=
  (dfVar, dataName) :: (parseControl content).map (fun p => ([p.1], p.2))

/-- Embedding of `exec_helper` (lpd.c lines 85-114) as it acts on the session
state: read the control file's content, unlink the control file, set the
environment, exec (terminal).  Reading a NULL filename or a missing file is
undefined behaviour (`crash`); it is proved unreachable below. -/
def runHelper (st : Sess) : StepRes :=
  match st.fname0, st.fname1 with
  | some cn, some dn =>
    match st.fs.find? (fun f => f.name == cn) with
    | some f =>
      .done { st with fs := unlinkFs st.fs cn } (.helperRun (ctrlEnv f.content dn))
    | none => .done st .crash
  | _, _ => .done st .crash

/-- Tail of one successful transfer (lpd.c lines 253-269): in spooling mode
chmod the file and accumulate the dump state, then invoke the helper when
the accumulated state reaches 6 and a helper is configured. -/
def finish (cfg : Config) (st : Sess) (c0 : Nat) (tgt : Target)
    (rest : List Nat) : StepRes :=
  let st := if st.spooling ≠ 0 then
      { chmod600 st tgt with
        spooling := st.spooling + c0,
        receipts := st.receipts ++ [c0] }
    else st
  if st.spooling = 6 then
    let st := { st with reached6 := true }
    if cfg.helper then runHelper (addMsg st .ack) else .cont st rest
  else .cont st rest

/-- The copy-and-acknowledge phase (lpd.c lines 238-251).  The libbb copy
routine is modelled from the spec (File Transfer Engine): it moves
`min expected available` bytes, so a stream that ends early yields a short
count; then exactly one acknowledgement byte is read and must be 0. -/
def transfer (cfg : Config) (st : Sess) (c0 : Nat) (n : Nat) (tgt : Target)
    (rest : List Nat) : StepRes :=
  let real := min n rest.length
  let st := writeTarget st tgt (rest.take real)
  let rest := rest.drop real
  if real ≠ n then
    .done (cleanup (addMsg st (.mismatch n real))) .failure
  else
    match rest with
    | [] => .done (cleanup st) .failure
    | a :: rest1 =>
      if a ≠ 0 then .done (cleanup st) .failure
      else finish cfg st c0 tgt rest1

/-- The open phase (lpd.c lines 221-236): spooling mode creates the sanitized
filename exclusively (an existing name, or an empty name, makes the open
fail); sink mode opens the queue target for append for a data file and
discards a control file. -/
def openAndCopy (cfg : Config) (st : Sess) (c0 : Nat) (n : Nat)
    (fname : List Nat) (rest : List Nat) : StepRes :=
  if st.spooling ≠ 0 then
    let fn := sane fname
    if fn = [] ∨ fn ∈ st.fs.map SpoolFile.name then
      .done (cleanup (addMsg st (.cantOpen fn))) .failure
    else
      let st := { st with
        fs := st.fs ++ [SpoolFile.mk fn n [] false],
        created := st.created ++ [fn] }
      let st := if c0 = 2 then { st with fname0 := some fn }
        else { st with fname1 := some fn }
      transfer cfg st c0 n (.file fn) rest
  else
    if c0 = 3 then
      if cfg.sinkExists then transfer cfg st c0 n .sinkT rest
      else .done st .died
    else transfer cfg st c0 n .discard rest

/-- `s[0]` of the received line viewed as a C string (lpd.c line 188). -/
def subcmdByte (line : List Nat) : Nat :=
  (line.takeWhile (fun c => c ≠ 0)).headD 0

/-- The line truncated at the first NUL (C string view) and at the first
newline (`*strchrnul(s, '\n') = '\0'`, lpd.c line 196). -/
def subcmdLine (line : List Nat) : List Nat :=
  (line.takeWhile (fun c => c ≠ 0)).takeWhile (fun c => c ≠ 10)

/-- The LEN field: what `bb_strtou(s + 1, ...)` sees after `*fname++ = '\0'`
split the line at the first space (lpd.c lines 197-209). -/
def subcmdLenField (line : List Nat) : List Nat :=
  ((subcmdLine line).takeWhile (fun c => c ≠ 32)).drop 1

/-- The FNAME field: everything after the first space (lpd.c line 203). -/
def subcmdFname (line : List Nat) : List Nat :=
  ((subcmdLine line).dropWhile (fun c => c ≠ 32)).tail

/-- Validation of one subcommand line (lpd.c lines 186-219): type byte,
duplicate check (note the code keeps `seen` with `&=`), filename after the
first space, decimal length, and the 16 KB ceiling for control files. -/
def handleCmd (cfg : Config) (st : Sess) (line : List Nat)
    (rest : List Nat) : StepRes :=
  let c0 := subcmdByte line
  if c0 ≠ 2 ∧ c0 ≠ 3 then
    .done (cleanup (addMsg st (.unsupported c0))) .failure
  else if st.seen &&& (c0 - 1) ≠ 0 then
    .done (cleanup (addMsg st .duplicated)) .failure
  else
    let st := { st with seen := st.seen &&& (c0 - 1) }
    if 32 ∈ subcmdLine line then
      match parseLen (subcmdLenField line) with
      | some n =>
        if c0 = 2 ∧ 16 * 1024 < n then
          .done (cleanup (addMsg st .tooBig)) .failure
        else
          openAndCopy cfg st c0 n (subcmdFname line) rest
      | none => .done (cleanup (addMsg st .badLength)) .failure
    else .done (cleanup (addMsg st .badFname)) .failure

/-- One iteration of the subcommand loop (lpd.c lines 163-270): signal OK,
read one line (end-of-stream ends the session: error in spooling mode,
success in sink mode), then validate and transfer. -/
def step (cfg : Config) (st : Sess) (input : List Nat) : StepRes :=
  let st := addMsg st .ack
  match readStdin input with
  | none =>
    if st.spooling ≠ 0 then .done (cleanup st) .failure
    else .done st .success
  | some lr => handleCmd cfg st lr.1 lr.2

theorem readLineGo_rest_le :
    ∀ (m : Nat) (l : List Nat), (readLineGo m l).2.length ≤ l.length := by
  intro m
  induction m with
  | zero => intro l; simp [readLineGo]
  | succ k ih =>
    intro l
    cases l with
    | nil => simp [readLineGo]
    | cons c rest =>
      by_cases h : c = 10
      · simp [readLineGo, h]
      · simp only [readLineGo, if_neg h, List.length_cons]
        have := ih rest
        omega

theorem readStdin_some_lt {input : List Nat} {lr : List Nat × List Nat}
    (h : readStdin input = some lr) : lr.2.length < input.length := by
  unfold readStdin at h
  by_cases he : input.isEmpty
  · simp [he] at h
  · simp only [he, Bool.false_eq_true, not_false_eq_true, if_neg] at h
    have h' := Option.some.inj h
    cases input with
    | nil => simp at he
    | cons c rest =>
      have h4096 : (4096 : Nat) = 4095 + 1 := rfl
      rw [h4096] at h'
      by_cases hc : c = 10
      · rw [← h']; simp [readLineGo, hc]
      · rw [← h']
        simp only [readLineGo, if_neg hc, List.length_cons]
        have := readLineGo_rest_le 4095 rest
        omega

theorem finish_cont {cfg : Config} {st : Sess} {c0 : Nat} {tgt : Target}
    {r : List Nat} {st' : Sess} {r' : List Nat}
    (h : finish cfg st c0 tgt r = .cont st' r') : r' = r := by
  simp only [finish, runHelper] at h
  repeat' split at h
  all_goals simp_all

theorem transfer_cont_lt {cfg : Config} {st : Sess} {c0 n : Nat}
    {tgt : Target} {rest : List Nat} {st' : Sess} {r' : List Nat}
    (h : transfer cfg st c0 n tgt rest = .cont st' r') :
    r'.length < rest.length := by
  simp only [transfer] at h
  split at h
  · simp_all
  · split at h
    · simp_all
    · rename_i a rest1 heq
      split at h
      · simp_all
      · have hr := finish_cont h
        subst hr
        have h1 := congrArg List.length heq
        simp at h1
        omega

theorem openAndCopy_cont_lt {cfg : Config} {st : Sess} {c0 n : Nat}
    {fname rest : List Nat} {st' : Sess} {r' : List Nat}
    (h : openAndCopy cfg st c0 n fname rest = .cont st' r') :
    r'.length < rest.length := by
  simp only [openAndCopy] at h
  split at h
  · split at h
    · simp_all
    · exact transfer_cont_lt h
  · split at h
    · split at h
      · exact transfer_cont_lt h
      · simp_all
    · exact transfer_cont_lt h

theorem handleCmd_cont_lt {cfg : Config} {st : Sess} {line rest : List Nat}
    {st' : Sess} {r' : List Nat}
    (h : handleCmd cfg st line rest = .cont st' r') :
    r'.length < rest.length := by
  simp only [handleCmd] at h
  split at h
  · simp_all
  · split at h
    · simp_all
    · split at h
      · split at h
        · split at h
          · simp_all
          · exact openAndCopy_cont_lt h
        · simp_all
      · simp_all

theorem step_cont_lt {cfg : Config} {st : Sess} {input : List Nat}
    {st' : Sess} {r' : List Nat}
    (h : step cfg st input = .cont st' r') : r'.length < input.length := by
  simp only [step] at h
  split at h
  · split at h <;> simp_all
  · rename_i lr heq
    have h1 := handleCmd_cont_lt h
    have h2 := readStdin_some_lt heq
    omega

/-- The subcommand loop (lpd.c `while (1)` lines 163-270). -/
def run (cfg : Config) (st : Sess) (input : List Nat) : Sess × Outcome :=
  match h : step cfg st input with
  | .done st' oc => (st', oc)
  | .cont st' rest => run cfg st' rest
termination_by input.length
decreasing_by
  simp_wf
  exact step_cont_lt h

/-- Session state at entry to the loop: `seen = 0`, no filenames recorded,
the queue directory as found, nothing yet written. -/
def initSess (sp : Nat) (fs0 : List SpoolFile) : Sess :=
  Sess.mk sp 0 none none fs0 [] [] [] [] false

/-- Embedding of `lpd_main` (lpd.c lines 124-281): read the first command
(NULL here is a NULL dereference, modelled as `crash`), require the
receive-job type byte 2, sanitize the queue name and fail if it is empty,
determine spooling mode by `chdir(queue) + 1`, then enter the loop. -/
def lpd_main (cfg : Config) (fs0 : List SpoolFile) (input : List Nat) :
    Sess × Outcome :=
  match readStdin input with
  | none => (initSess 0 fs0, .crash)
  | some lr =>
    let s := lr.1.takeWhile (fun c => c ≠ 0)
    if s.headD 0 ≠ 2 then
      (addMsg (initSess 0 fs0) (.unsupported (s.headD 0)), .failure)
    else if sane (s.drop 1) = [] then
      (initSess 0 fs0, .failure)
    else
      run cfg (initSess (if cfg.queueIsDir then 1 else 0) fs0) lr.2

section ListHelpers

theorem takeWhile_all {p : Nat → Bool} :
    ∀ l : List Nat, (∀ c ∈ l, p c = true) → l.takeWhile p = l := by
  intro l
  induction l with
  | nil => intro _; rfl
  | cons c t ih =>
    intro h
    have hc := h c (by simp)
    simp only [List.takeWhile_cons, hc, if_true]
    rw [ih (fun b hb => h b (by simp [hb]))]

theorem mem_of_mem_takeWhile {p : Nat → Bool} {x : Nat} :
    ∀ {l : List Nat}, x ∈ l.takeWhile p → x ∈ l := by
  intro l
  induction l with
  | nil => intro h; simp [List.takeWhile] at h
  | cons c t ih =>
    intro h
    simp only [List.takeWhile_cons] at h
    by_cases hc : p c = true
    · simp [hc] at h
      rcases h with h | h
      · simp [h]
      · simp [ih h]
    · simp [hc] at h

theorem takeWhile_append_false {p : Nat → Bool} {x : Nat}
    (hx : p x = false) :
    ∀ (v r : List Nat), (∀ b ∈ v, p b = true) →
      (v ++ x :: r).takeWhile p = v := by
  intro v
  induction v with
  | nil => intro r _; simp [List.takeWhile_cons, hx]
  | cons c t ih =>
    intro r h
    have hc := h c (by simp)
    simp only [List.cons_append, List.takeWhile_cons, hc, if_true]
    rw [ih r (fun b hb => h b (by simp [hb]))]

theorem dropWhile_append_false {p : Nat → Bool} {x : Nat}
    (hx : p x = false) :
    ∀ (v r : List Nat), (∀ b ∈ v, p b = true) →
      (v ++ x :: r).dropWhile p = x :: r := by
  intro v
  induction v with
  | nil => intro r _; simp [List.dropWhile_cons, hx]
  | cons c t ih =>
    intro r h
    have hc := h c (by simp)
    simp only [List.cons_append, List.dropWhile_cons, hc, if_true]
    exact ih r (fun b hb => h b (by simp [hb]))

theorem mem_takeWhile_append {p : Nat → Bool} {x : Nat}
    (hx : p x = true) :
    ∀ (v r : List Nat), (∀ b ∈ v, p b = true) →
      x ∈ (v ++ x :: r).takeWhile p := by
  intro v
  induction v with
  | nil => intro r _; simp [List.takeWhile_cons, hx]
  | cons c t ih =>
    intro r h
    have hc := h c (by simp)
    simp only [List.cons_append, List.takeWhile_cons, hc, if_true]
    exact List.mem_cons_of_mem c (ih r (fun b hb => h b (by simp [hb])))

theorem map_eq_self_of {α : Type} {f : α → α} :
    ∀ l : List α, (∀ a ∈ l, f a = a) → l.map f = l := by
  intro l
  induction l with
  | nil => intro _; rfl
  | cons c t ih =>
    intro h
    simp only [List.map_cons, h c (by simp)]
    rw [ih (fun b hb => h b (by simp [hb]))]

end ListHelpers

section FieldLemmas

theorem addMsg_fields (st : Sess) (m : Msg) :
    (addMsg st m).spooling = st.spooling ∧ (addMsg st m).seen = st.seen ∧
    (addMsg st m).fname0 = st.fname0 ∧ (addMsg st m).fname1 = st.fname1 ∧
    (addMsg st m).fs = st.fs ∧ (addMsg st m).sink = st.sink ∧
    (addMsg st m).created = st.created ∧ (addMsg st m).receipts = st.receipts ∧
    (addMsg st m).reached6 = st.reached6 := by
  simp [addMsg]

theorem cleanup_fields (st : Sess) :
    (cleanup st).spooling = st.spooling ∧ (cleanup st).seen = st.seen ∧
    (cleanup st).fname0 = st.fname0 ∧ (cleanup st).fname1 = st.fname1 ∧
    (cleanup st).sink = st.sink ∧ (cleanup st).output = st.output ∧
    (cleanup st).created = st.created ∧ (cleanup st).receipts = st.receipts ∧
    (cleanup st).reached6 = st.reached6 := by
  unfold cleanup
  repeat' split
  all_goals simp

theorem cleanup_sink {st : Sess} (h : st.spooling = 0) : cleanup st = st := by
  unfold cleanup
  simp [h]

theorem writeTarget_fields (st : Sess) (tgt : Target) (p : List Nat) :
    (writeTarget st tgt p).spooling = st.spooling ∧
    (writeTarget st tgt p).seen = st.seen ∧
    (writeTarget st tgt p).fname0 = st.fname0 ∧
    (writeTarget st tgt p).fname1 = st.fname1 ∧
    (writeTarget st tgt p).output = st.output ∧
    (writeTarget st tgt p).created = st.created ∧
    (writeTarget st tgt p).receipts = st.receipts ∧
    (writeTarget st tgt p).reached6 = st.reached6 := by
  unfold writeTarget
  repeat' split
  all_goals simp

theorem writeTarget_nonfile_fs (st : Sess) (p : List Nat) :
    (writeTarget st .sinkT p).fs = st.fs ∧
    (writeTarget st .discard p).fs = st.fs ∧
    (writeTarget st .discard p).sink = st.sink ∧
    (writeTarget st .sinkT p).sink = st.sink ++ p := by
  simp [writeTarget]

/-- Appending the payload to a freshly created exclusively named file touches
exactly that file. -/
theorem update_fs_append (A : List SpoolFile) (fn : List Nat) (n : Nat)
    (payload : List Nat) (h : fn ∉ A.map SpoolFile.name) :
    (A ++ [SpoolFile.mk fn n [] false]).map (fun f =>
        if f.name = fn then { f with content := f.content ++ payload } else f)
      = A ++ [SpoolFile.mk fn n payload false] := by
  rw [List.map_append]
  have hA : A.map (fun f =>
      if f.name = fn then { f with content := f.content ++ payload } else f) = A := by
    apply map_eq_self_of
    intro a ha
    have : a.name ≠ fn := by
      intro hcontr
      exact h (by rw [← hcontr]; exact List.mem_map_of_mem SpoolFile.name ha)
    simp [this]
  rw [hA]
  simp

/-- Chmodding the freshly written exclusively named file touches exactly it. -/
theorem chmod_fs_append (A : List SpoolFile) (fn : List Nat) (n : Nat)
    (payload : List Nat) (h : fn ∉ A.map SpoolFile.name) :
    (A ++ [SpoolFile.mk fn n payload false]).map (fun f =>
        if f.name = fn then { f with mode600 := true } else f)
      = A ++ [SpoolFile.mk fn n payload true] := by
  rw [List.map_append]
  have hA : A.map (fun f =>
      if f.name = fn then { f with mode600 := true } else f) = A := by
    apply map_eq_self_of
    intro a ha
    have : a.name ≠ fn := by
      intro hcontr
      exact h (by rw [← hcontr]; exact List.mem_map_of_mem SpoolFile.name ha)
    simp [this]
  rw [hA]
  simp

end FieldLemmas

section EquationLemmas

theorem step_eq_eof_spool {cfg : Config} {st : Sess}
    (hsp : st.spooling ≠ 0) :
    step cfg st [] = .done (cleanup (addMsg st .ack)) .failure := by
  simp [step, readStdin, addMsg, hsp]

theorem step_eq_eof_sink {cfg : Config} {st : Sess}
    (hsp : st.spooling = 0) :
    step cfg st [] = .done (addMsg st .ack) .success := by
  simp [step, readStdin, addMsg, hsp]

theorem step_eq_read {cfg : Config} {st : Sess} {input line rest : List Nat}
    (h : readStdin input = some (line, rest)) :
    step cfg st input = handleCmd cfg (addMsg st .ack) line rest := by
  simp [step, h]

theorem runHelper_eq {st : Sess} {cn dn : List Nat} {f : SpoolFile}
    (h0 : st.fname0 = some cn) (h1 : st.fname1 = some dn)
    (hf : st.fs.find? (fun f => f.name == cn) = some f) :
    runHelper st = .done { st with fs := unlinkFs st.fs cn }
      (.helperRun (ctrlEnv f.content dn)) := by
  simp [runHelper, h0, h1, hf]

theorem transfer_eq_short {cfg : Config} {st : Sess} {c0 n : Nat}
    {tgt : Target} {rest : List Nat} (h : min n rest.length ≠ n) :
    transfer cfg st c0 n tgt rest =
      .done (cleanup (addMsg (writeTarget st tgt (rest.take (min n rest.length)))
        (.mismatch n (min n rest.length)))) .failure := by
  simp [transfer, h]

theorem transfer_eq_noack {cfg : Config} {st : Sess} {c0 n : Nat}
    {tgt : Target} {rest : List Nat} (hn : n ≤ rest.length)
    (hd : rest.drop n = []) :
    transfer cfg st c0 n tgt rest =
      .done (cleanup (writeTarget st tgt (rest.take n))) .failure := by
  simp [transfer, Nat.min_eq_left hn, hd]

theorem transfer_eq_badack {cfg : Config} {st : Sess} {c0 n a : Nat}
    {tgt : Target} {rest r1 : List Nat} (hn : n ≤ rest.length)
    (hd : rest.drop n = a :: r1) (ha : a ≠ 0) :
    transfer cfg st c0 n tgt rest =
      .done (cleanup (writeTarget st tgt (rest.take n))) .failure := by
  simp [transfer, Nat.min_eq_left hn, hd, ha]

theorem transfer_eq_ok {cfg : Config} {st : Sess} {c0 n : Nat}
    {tgt : Target} {rest r1 : List Nat} (hd : rest.drop n = 0 :: r1) :
    transfer cfg st c0 n tgt rest =
      finish cfg (writeTarget st tgt (rest.take n)) c0 tgt r1 := by
  have hn : n ≤ rest.length := by
    by_contra hcon
    rw [List.drop_eq_nil_of_le (by omega)] at hd
    exact absurd hd (by simp)
  simp [transfer, Nat.min_eq_left hn, hd]

theorem finish_eq_sink {cfg : Config} {st : Sess} {c0 : Nat} {tgt : Target}
    {rest : List Nat} (hsp : st.spooling = 0) :
    finish cfg st c0 tgt rest = .cont st rest := by
  simp [finish, hsp]

theorem finish_eq_not6 {cfg : Config} {st : Sess} {c0 : Nat} {tgt : Target}
    {rest : List Nat} (hsp : st.spooling ≠ 0) (h6 : st.spooling + c0 ≠ 6) :
    finish cfg st c0 tgt rest =
      .cont
        { chmod600 st tgt with
          spooling := st.spooling + c0,
          receipts := st.receipts ++ [c0] } rest := by
  simp only [finish, if_pos hsp]
  rw [if_neg (by simp [h6])]

theorem finish_eq_6_nohelper {cfg : Config} {st : Sess} {c0 : Nat}
    {tgt : Target} {rest : List Nat} (hsp : st.spooling ≠ 0)
    (h6 : st.spooling + c0 = 6) (hh : cfg.helper = false) :
    finish cfg st c0 tgt rest =
      .cont
        { chmod600 st tgt with
          spooling := st.spooling + c0,
          receipts := st.receipts ++ [c0],
          reached6 := true } rest := by
  simp only [finish, if_pos hsp]
  rw [if_pos (by simp [h6])]
  simp [hh]

theorem finish_eq_6_helper {cfg : Config} {st : Sess} {c0 : Nat}
    {tgt : Target} {rest : List Nat} (hsp : st.spooling ≠ 0)
    (h6 : st.spooling + c0 = 6) (hh : cfg.helper = true) :
    finish cfg st c0 tgt rest =
      runHelper (addMsg
        { chmod600 st tgt with
          spooling := st.spooling + c0,
          receipts := st.receipts ++ [c0],
          reached6 := true } .ack) := by
  simp only [finish, if_pos hsp]
  rw [if_pos (by simp [h6])]
  simp [hh]

theorem openAndCopy_eq_openfail {cfg : Config} {st : Sess} {c0 n : Nat}
    {fname rest : List Nat} (hsp : st.spooling ≠ 0)
    (h : sane fname = [] ∨ sane fname ∈ st.fs.map SpoolFile.name) :
    openAndCopy cfg st c0 n fname rest =
      .done (cleanup (addMsg st (.cantOpen (sane fname)))) .failure := by
  simp only [openAndCopy, if_pos hsp]
  rw [if_pos h]

theorem openAndCopy_eq_create {cfg : Config} {st : Sess} {c0 n : Nat}
    {fname rest : List Nat} (hsp : st.spooling ≠ 0)
    (h1 : sane fname ≠ []) (h2 : sane fname ∉ st.fs.map SpoolFile.name) :
    openAndCopy cfg st c0 n fname rest =
      transfer cfg
        (if c0 = 2 then
          { st with
            fs := st.fs ++ [SpoolFile.mk (sane fname) n [] false],
            created := st.created ++ [sane fname],
            fname0 := some (sane fname) }
        else
          { st with
            fs := st.fs ++ [SpoolFile.mk (sane fname) n [] false],
            created := st.created ++ [sane fname],
            fname1 := some (sane fname) })
        c0 n (.file (sane fname)) rest := by
  simp only [openAndCopy, if_pos hsp]
  rw [if_neg (by rw [not_or]; exact ⟨h1, h2⟩)]

theorem openAndCopy_eq_sinkdata {cfg : Config} {st : Sess} {n : Nat}
    {fname rest : List Nat} (hsp : st.spooling = 0)
    (hs : cfg.sinkExists = true) :
    openAndCopy cfg st 3 n fname rest = transfer cfg st 3 n .sinkT rest := by
  simp [openAndCopy, hsp, hs]

theorem openAndCopy_eq_sinkdie {cfg : Config} {st : Sess} {n : Nat}
    {fname rest : List Nat} (hsp : st.spooling = 0)
    (hs : cfg.sinkExists = false) :
    openAndCopy cfg st 3 n fname rest = .done st .died := by
  simp [openAndCopy, hsp, hs]

theorem openAndCopy_eq_sinkctrl {cfg : Config} {st : Sess} {n : Nat}
    {fname rest : List Nat} (hsp : st.spooling = 0) :
    openAndCopy cfg st 2 n fname rest = transfer cfg st 2 n .discard rest := by
  simp [openAndCopy, hsp]

theorem handleCmd_eq_unsupported {cfg : Config} {st : Sess}
    {line rest : List Nat} (h2 : subcmdByte line ≠ 2)
    (h3 : subcmdByte line ≠ 3) :
    handleCmd cfg st line rest =
      .done (cleanup (addMsg st (.unsupported (subcmdByte line)))) .failure := by
  simp only [handleCmd]
  rw [if_pos ⟨h2, h3⟩]

theorem handleCmd_eq_dup {cfg : Config} {st : Sess} {line rest : List Nat}
    (hc : subcmdByte line = 2 ∨ subcmdByte line = 3)
    (hs : st.seen &&& (subcmdByte line - 1) ≠ 0) :
    handleCmd cfg st line rest =
      .done (cleanup (addMsg st .duplicated)) .failure := by
  simp only [handleCmd]
  rw [if_neg (by rcases hc with h | h <;> simp [h])]
  rw [if_pos hs]

theorem handleCmd_eq_badFname {cfg : Config} {st : Sess} {line rest : List Nat}
    (hc : subcmdByte line = 2 ∨ subcmdByte line = 3)
    (hs : st.seen &&& (subcmdByte line - 1) = 0)
    (hf : 32 ∉ subcmdLine line) :
    handleCmd cfg st line rest =
      .done (cleanup (addMsg
        { st with seen := st.seen &&& (subcmdByte line - 1) } .badFname)) .failure := by
  simp only [handleCmd]
  rw [if_neg (by rcases hc with h | h <;> simp [h])]
  rw [if_neg (by simp [hs])]
  rw [if_neg hf]

theorem handleCmd_eq_badLength {cfg : Config} {st : Sess} {line rest : List Nat}
    (hc : subcmdByte line = 2 ∨ subcmdByte line = 3)
    (hs : st.seen &&& (subcmdByte line - 1) = 0)
    (hf : 32 ∈ subcmdLine line)
    (hn : parseLen (subcmdLenField line) = none) :
    handleCmd cfg st line rest =
      .done (cleanup (addMsg
        { st with seen := st.seen &&& (subcmdByte line - 1) } .badLength)) .failure := by
  simp only [handleCmd]
  rw [if_neg (by rcases hc with h | h <;> simp [h])]
  rw [if_neg (by simp [hs])]
  rw [if_pos hf, hn]

theorem handleCmd_eq_tooBig {cfg : Config} {st : Sess} {line rest : List Nat}
    {n : Nat} (hc : subcmdByte line = 2)
    (hs : st.seen &&& 1 = 0)
    (hf : 32 ∈ subcmdLine line)
    (hn : parseLen (subcmdLenField line) = some n)
    (hbig : 16 * 1024 < n) :
    handleCmd cfg st line rest =
      .done (cleanup (addMsg
        { st with seen := st.seen &&& 1 } .tooBig)) .failure := by
  simp only [handleCmd, hc, hn]
  simp [hs, hf, hbig]

theorem handleCmd_eq_ctrlgo {cfg : Config} {st : Sess} {line rest : List Nat}
    {n : Nat} (hc : subcmdByte line = 2)
    (hs : st.seen &&& 1 = 0)
    (hf : 32 ∈ subcmdLine line)
    (hn : parseLen (subcmdLenField line) = some n)
    (hsmall : n ≤ 16 * 1024) :
    handleCmd cfg st line rest =
      openAndCopy cfg { st with seen := st.seen &&& 1 } 2 n
        (subcmdFname line) rest := by
  simp only [handleCmd, hc, hn]
  simp [hs, hf, Nat.not_lt.mpr hsmall]

theorem handleCmd_eq_datago {cfg : Config} {st : Sess} {line rest : List Nat}
    {n : Nat} (hc : subcmdByte line = 3)
    (hs : st.seen &&& 2 = 0)
    (hf : 32 ∈ subcmdLine line)
    (hn : parseLen (subcmdLenField line) = some n) :
    handleCmd cfg st line rest =
      openAndCopy cfg { st with seen := st.seen &&& 2 } 3 n
        (subcmdFname line) rest := by
  simp only [handleCmd, hc, hn]
  simp [hs, hf]

end EquationLemmas

section ShapeLemmas

theorem runHelper_ne_cont {st st' : Sess} {r : List Nat} :
    runHelper st ≠ .cont st' r := by
  unfold runHelper
  repeat' split
  all_goals simp

/-- A transfer only continues when the stream supplied the declared number of
bytes followed by a zero acknowledgement byte. -/
theorem transfer_cont_char {cfg : Config} {T : Sess} {c0 n : Nat}
    {tgt : Target} {rest : List Nat} {st' : Sess} {rest' : List Nat}
    (h : transfer cfg T c0 n tgt rest = .cont st' rest') :
    ∃ r1, rest.drop n = 0 :: r1 ∧ n ≤ rest.length ∧ rest' = r1 ∧
      finish cfg (writeTarget T tgt (rest.take n)) c0 tgt r1 = .cont st' r1 := by
  by_cases hmin : min n rest.length ≠ n
  · rw [transfer_eq_short hmin] at h
    simp at h
  · push_neg at hmin
    have hn : n ≤ rest.length := by
      rcases Nat.le_total n rest.length with h' | h'
      · exact h'
      · have := Nat.min_eq_right h'
        omega
    rcases hd : rest.drop n with _ | ⟨a, r1⟩
    · rw [transfer_eq_noack hn hd] at h
      simp at h
    · by_cases ha : a ≠ 0
      · rw [transfer_eq_badack hn hd ha] at h
        simp at h
      · push_neg at ha
        subst ha
        rw [transfer_eq_ok hd] at h
        have hrr := finish_cont h
        rw [hrr] at h
        exact ⟨r1, rfl, hn, hrr, h⟩

/-- A finish that continues either was in sink mode (state unchanged) or
bumps the dump state, chmods the file, and records the receipt. -/
theorem finish_cont_char {cfg : Config} {D : Sess} {c0 : Nat} {tgt : Target}
    {r1 : List Nat} {st' : Sess}
    (h : finish cfg D c0 tgt r1 = .cont st' r1) :
    (D.spooling = 0 → st' = D) ∧
    (D.spooling ≠ 0 →
      st' = (if D.spooling + c0 = 6 then
        { chmod600 D tgt with
          spooling := D.spooling + c0,
          receipts := D.receipts ++ [c0],
          reached6 := true }
      else
        { chmod600 D tgt with
          spooling := D.spooling + c0,
          receipts := D.receipts ++ [c0] }) ∧
      (cfg.helper = true → D.spooling + c0 ≠ 6)) := by
  by_cases hsp : D.spooling = 0
  · rw [finish_eq_sink hsp] at h
    constructor
    · intro _
      exact ((StepRes.cont.injEq _ _ _ _).mp h).1.symm
    · intro hcon
      exact absurd hsp hcon
  · constructor
    · intro h0
      exact absurd h0 hsp
    · intro _
      by_cases h6 : D.spooling + c0 = 6
      · by_cases hh : cfg.helper = true
        · rw [finish_eq_6_helper hsp h6 hh] at h
          exact absurd h runHelper_ne_cont
        · have hh' : cfg.helper = false := by
            cases hhel : cfg.helper
            · rfl
            · exact absurd hhel hh
          rw [finish_eq_6_nohelper hsp h6 hh'] at h
          refine ⟨?_, fun hcon => absurd hcon hh⟩
          rw [if_pos h6]
          exact ((StepRes.cont.injEq _ _ _ _).mp h).1.symm
      · rw [finish_eq_not6 hsp h6] at h
        refine ⟨?_, fun _ => h6⟩
        rw [if_neg h6]
        exact ((StepRes.cont.injEq _ _ _ _).mp h).1.symm

/-- Characterization of a continuing iteration from the open phase on, for a
valid subcommand byte. -/
theorem cont_core {cfg : Config} {S : Sess} {c0 n : Nat}
    {fname rest : List Nat} {st' : Sess} {rest' : List Nat}
    (hc : c0 = 2 ∨ c0 = 3)
    (h : openAndCopy cfg S c0 n fname rest = .cont st' rest') :
    (S.spooling = 0 →
      st'.spooling = 0 ∧ st'.fs = S.fs ∧ st'.created = S.created ∧
      st'.fname0 = S.fname0 ∧ st'.fname1 = S.fname1 ∧
      st'.receipts = S.receipts ∧ st'.reached6 = S.reached6) ∧
    (S.spooling ≠ 0 →
      ∃ c1 fn n1 payload,
        (c1 = 2 ∨ c1 = 3) ∧ fn ≠ [] ∧ fn ∉ S.fs.map SpoolFile.name ∧
        payload.length = n1 ∧
        st'.fs = S.fs ++ [SpoolFile.mk fn n1 payload true] ∧
        st'.created = S.created ++ [fn] ∧
        st'.spooling = S.spooling + c1 ∧
        st'.receipts = S.receipts ++ [c1] ∧
        (c1 = 2 → st'.fname0 = some fn ∧ st'.fname1 = S.fname1) ∧
        (c1 = 3 → st'.fname1 = some fn ∧ st'.fname0 = S.fname0)) ∧
    st'.reached6 = (if st'.spooling = 6 then true else S.reached6) ∧
    (cfg.helper = true → st'.spooling ≠ 6) := by
  by_cases hsp : S.spooling = 0
  · -- sink mode
    have sinkset : ∀ tgt : Target, tgt = .sinkT ∨ tgt = .discard →
        transfer cfg S c0 n tgt rest = .cont st' rest' →
        (S.spooling = 0 →
          st'.spooling = 0 ∧ st'.fs = S.fs ∧ st'.created = S.created ∧
          st'.fname0 = S.fname0 ∧ st'.fname1 = S.fname1 ∧
          st'.receipts = S.receipts ∧ st'.reached6 = S.reached6) ∧
        (S.spooling ≠ 0 → ∃ c1 fn n1 payload,
          (c1 = 2 ∨ c1 = 3) ∧ fn ≠ [] ∧ fn ∉ S.fs.map SpoolFile.name ∧
          payload.length = n1 ∧
          st'.fs = S.fs ++ [SpoolFile.mk fn n1 payload true] ∧
          st'.created = S.created ++ [fn] ∧
          st'.spooling = S.spooling + c1 ∧
          st'.receipts = S.receipts ++ [c1] ∧
          (c1 = 2 → st'.fname0 = some fn ∧ st'.fname1 = S.fname1) ∧
          (c1 = 3 → st'.fname1 = some fn ∧ st'.fname0 = S.fname0)) ∧
        st'.reached6 = (if st'.spooling = 6 then true else S.reached6) ∧
        (cfg.helper = true → st'.spooling ≠ 6) := by
      intro tgt htgt htr
      obtain ⟨r1, hd, hn, hrr, hfin⟩ := transfer_cont_char htr
      have hD0 : (writeTarget S tgt (rest.take n)).spooling = 0 := by
        rcases htgt with htgt | htgt <;> subst htgt <;> simpa [writeTarget]
      have hst' := (finish_cont_char hfin).1 hD0
      subst hst'
      rcases htgt with htgt | htgt <;> subst htgt <;>
        simp [writeTarget, hsp]
    rcases hc with hc | hc <;> subst hc
    · rw [openAndCopy_eq_sinkctrl hsp] at h
      exact sinkset .discard (Or.inr rfl) h
    · by_cases hse : cfg.sinkExists = true
      · rw [openAndCopy_eq_sinkdata hsp hse] at h
        exact sinkset .sinkT (Or.inl rfl) h
      · have hse' : cfg.sinkExists = false := by
          cases hv : cfg.sinkExists
          · rfl
          · exact absurd hv hse
        rw [openAndCopy_eq_sinkdie hsp hse'] at h
        simp at h
  · -- spooling mode
    by_cases hof : sane fname = [] ∨ sane fname ∈ S.fs.map SpoolFile.name
    · rw [openAndCopy_eq_openfail hsp hof] at h
      simp at h
    · push_neg at hof
      rw [openAndCopy_eq_create hsp hof.1 hof.2] at h
      obtain ⟨r1, hd, hn, hrr, hfin⟩ := transfer_cont_char h
      have hlen : (rest.take n).length = n := by
        simp [Nat.min_eq_left hn]
      rcases hc with hc | hc <;> subst hc
      · -- control file
        rw [if_pos rfl] at hfin
        have hDsp : (writeTarget
            { S with
              fs := S.fs ++ [SpoolFile.mk (sane fname) n [] false],
              created := S.created ++ [sane fname],
              fname0 := some (sane fname) }
            (.file (sane fname)) (rest.take n)).spooling = S.spooling := by
          simp [writeTarget]
        have hst' := ((finish_cont_char hfin).2 (by rw [hDsp]; exact hsp)).1
        have hhelp := ((finish_cont_char hfin).2 (by rw [hDsp]; exact hsp)).2
        refine ⟨fun h0 => absurd h0 hsp, fun _ => ?_, ?_, ?_⟩
        · refine ⟨2, sane fname, n, rest.take n, Or.inl rfl, hof.1, hof.2,
            hlen, ?_⟩
          rw [hst']
          rw [hDsp] at *
          by_cases h6 : S.spooling + 2 = 6 <;>
            simp [h6, writeTarget, chmod600,
              update_fs_append S.fs (sane fname) n (rest.take n) hof.2,
              chmod_fs_append S.fs (sane fname) n (rest.take n) hof.2]
        · rw [hst']
          rw [hDsp] at *
          by_cases h6 : S.spooling + 2 = 6 <;>
            simp [h6, writeTarget, chmod600]
        · intro hh
          rw [hst']
          rw [hDsp] at *
          have h6 := hhelp hh
          by_cases hx : S.spooling + 2 = 6 <;>
            simp [hx, writeTarget, chmod600] <;> omega
      · -- data file
        rw [if_neg (by omega)] at hfin
        have hDsp : (writeTarget
            { S with
              fs := S.fs ++ [SpoolFile.mk (sane fname) n [] false],
              created := S.created ++ [sane fname],
              fname1 := some (sane fname) }
            (.file (sane fname)) (rest.take n)).spooling = S.spooling := by
          simp [writeTarget]
        have hst' := ((finish_cont_char hfin).2 (by rw [hDsp]; exact hsp)).1
        have hhelp := ((finish_cont_char hfin).2 (by rw [hDsp]; exact hsp)).2
        refine ⟨fun h0 => absurd h0 hsp, fun _ => ?_, ?_, ?_⟩
        · refine ⟨3, sane fname, n, rest.take n, Or.inr rfl, hof.1, hof.2,
            hlen, ?_⟩
          rw [hst']
          rw [hDsp] at *
          by_cases h6 : S.spooling + 3 = 6 <;>
            simp [h6, writeTarget, chmod600,
              update_fs_append S.fs (sane fname) n (rest.take n) hof.2,
              chmod_fs_append S.fs (sane fname) n (rest.take n) hof.2]
        · rw [hst']
          rw [hDsp] at *
          by_cases h6 : S.spooling + 3 = 6 <;>
            simp [h6, writeTarget, chmod600]
        · intro hh
          rw [hst']
          rw [hDsp] at *
          have h6 := hhelp hh
          by_cases hx : S.spooling + 3 = 6 <;>
            simp [hx, writeTarget, chmod600] <;> omega

/-- Characterization of every continuing iteration: in sink mode nothing in
the queue directory changes; in spooling mode exactly one fresh file is
created, fully written with its declared number of bytes, committed
(mode 0600), recorded under its subcommand's filename slot, and the dump
state accumulates. -/
theorem step_cont_props {cfg : Config} {st : Sess} {input : List Nat}
    {st' : Sess} {rest' : List Nat}
    (h : step cfg st input = .cont st' rest') :
    (st.spooling = 0 →
      st'.spooling = 0 ∧ st'.fs = st.fs ∧ st'.created = st.created ∧
      st'.fname0 = st.fname0 ∧ st'.fname1 = st.fname1 ∧
      st'.receipts = st.receipts ∧ st'.reached6 = st.reached6) ∧
    (st.spooling ≠ 0 →
      ∃ c0 fn n payload,
        (c0 = 2 ∨ c0 = 3) ∧ fn ≠ [] ∧ fn ∉ st.fs.map SpoolFile.name ∧
        payload.length = n ∧
        st'.fs = st.fs ++ [SpoolFile.mk fn n payload true] ∧
        st'.created = st.created ++ [fn] ∧
        st'.spooling = st.spooling + c0 ∧
        st'.receipts = st.receipts ++ [c0] ∧
        (c0 = 2 → st'.fname0 = some fn ∧ st'.fname1 = st.fname1) ∧
        (c0 = 3 → st'.fname1 = some fn ∧ st'.fname0 = st.fname0)) ∧
    st'.reached6 = (if st'.spooling = 6 then true else st.reached6) ∧
    (cfg.helper = true → st'.spooling ≠ 6) := by
  rcases hr : readStdin input with _ | ⟨line, rest⟩
  · simp only [step, hr] at h
    split at h <;> simp at h
  · rw [step_eq_read hr] at h
    by_cases hc : subcmdByte line = 2 ∨ subcmdByte line = 3
    · by_cases hdup : (addMsg st .ack).seen &&& (subcmdByte line - 1) ≠ 0
      · rw [handleCmd_eq_dup hc hdup] at h
        simp at h
      · push_neg at hdup
        by_cases hf : 32 ∈ subcmdLine line
        · rcases hn : parseLen (subcmdLenField line) with _ | n
          · rw [handleCmd_eq_badLength hc hdup hf hn] at h
            simp at h
          · -- a well-formed subcommand: analyse the two types
            rcases hc with hc | hc
            · by_cases hbig : 16 * 1024 < n
              · rw [handleCmd_eq_tooBig hc (by rw [hc] at hdup; exact hdup)
                  hf hn hbig] at h
                simp at h
              · rw [handleCmd_eq_ctrlgo hc (by rw [hc] at hdup; exact hdup)
                  hf hn (by omega)] at h
                have hcc := cont_core (Or.inl rfl) h
                exact hcc
            · rw [handleCmd_eq_datago hc (by rw [hc] at hdup; exact hdup)
                hf hn] at h
              have hcc := cont_core (Or.inr rfl) h
              exact hcc
        · rw [handleCmd_eq_badFname hc hdup hf] at h
          simp at h
    · push_neg at hc
      rw [handleCmd_eq_unsupported hc.1 hc.2] at h
      simp at h

/-- A transfer that ends the session only does so with a failure after
cleanup, leaving the dump bookkeeping untouched; in sink mode it leaves the
queue directory untouched. -/
theorem transfer_done_char {cfg : Config} {T : Sess} {c0 n : Nat}
    {tgt : Target} {rest : List Nat} {st' : Sess} {oc : Outcome}
    (hT0 : T.spooling = 0) (htgt : tgt = Target.sinkT ∨ tgt = Target.discard)
    (h : transfer cfg T c0 n tgt rest = .done st' oc) :
    oc = .failure ∧ st'.spooling = T.spooling ∧ st'.receipts = T.receipts ∧
    st'.reached6 = T.reached6 ∧ st'.fs = T.fs ∧ st'.created = T.created ∧
    st'.fname0 = T.fname0 ∧ st'.fname1 = T.fname1 := by
  have hW : ∀ p : List Nat, (writeTarget T tgt p).fs = T.fs ∧
      (writeTarget T tgt p).spooling = T.spooling ∧
      (writeTarget T tgt p).receipts = T.receipts ∧
      (writeTarget T tgt p).reached6 = T.reached6 ∧
      (writeTarget T tgt p).created = T.created ∧
      (writeTarget T tgt p).fname0 = T.fname0 ∧
      (writeTarget T tgt p).fname1 = T.fname1 := by
    intro p
    rcases htgt with htgt | htgt <;> subst htgt <;> simp [writeTarget]
  by_cases hmin : min n rest.length ≠ n
  · rw [transfer_eq_short hmin] at h
    have hc := (StepRes.done.injEq _ _ _ _).mp h
    rw [← hc.1, hc.2]
    have hs0 : (addMsg (writeTarget T tgt (rest.take (min n rest.length)))
        (Msg.mismatch n (min n rest.length))).spooling = 0 := by
      simp [addMsg, (hW _).2.1, hT0]
    rw [cleanup_sink hs0]
    simp [addMsg, hW _]
  · push_neg at hmin
    have hn : n ≤ rest.length := by
      rcases Nat.le_total n rest.length with h' | h'
      · exact h'
      · have := Nat.min_eq_right h'
        omega
    rcases hd : rest.drop n with _ | ⟨a, r1⟩
    · rw [transfer_eq_noack hn hd] at h
      have hc := (StepRes.done.injEq _ _ _ _).mp h
      rw [← hc.1, hc.2]
      have hs0 : (writeTarget T tgt (rest.take n)).spooling = 0 := by
        rw [(hW _).2.1]; exact hT0
      rw [cleanup_sink hs0]
      simp [hW _]
    · by_cases ha : a ≠ 0
      · rw [transfer_eq_badack hn hd ha] at h
        have hc := (StepRes.done.injEq _ _ _ _).mp h
        rw [← hc.1, hc.2]
        have hs0 : (writeTarget T tgt (rest.take n)).spooling = 0 := by
          rw [(hW _).2.1]; exact hT0
        rw [cleanup_sink hs0]
        simp [hW _]
      · push_neg at ha
        subst ha
        rw [transfer_eq_ok hd] at h
        rw [finish_eq_sink (by rw [(hW _).2.1]; exact hT0)] at h
        simp at h

theorem runHelper_oc {st st' : Sess} {oc : Outcome}
    (h : runHelper st = .done st' oc) :
    (∃ env, oc = .helperRun env) ∨ oc = .crash := by
  unfold runHelper at h
  split at h
  · split at h
    · exact Or.inl ⟨_, (((StepRes.done.injEq _ _ _ _).mp h).2).symm⟩
    · exact Or.inr (((StepRes.done.injEq _ _ _ _).mp h).2).symm
  · exact Or.inr (((StepRes.done.injEq _ _ _ _).mp h).2).symm

/-- In spooling mode, a transfer that ends the session is a cleaned-up
failure whose state came from the written state by cleanup, preserving the
dump bookkeeping. -/
theorem transfer_done_spool_char {cfg : Config} {T : Sess} {c0 n : Nat}
    {tgt : Target} {rest : List Nat} {st' : Sess} {oc : Outcome}
    (hTsp : T.spooling ≠ 0) (hc : c0 = 2 ∨ c0 = 3)
    (htgt : ∀ fn : List Nat, tgt = Target.file fn →
      (writeTarget T tgt (rest.take (min n rest.length))).spooling = T.spooling)
    (h : transfer cfg T c0 n tgt rest = .done st' oc) :
    (oc = .failure ∧ st'.spooling = T.spooling ∧ st'.receipts = T.receipts ∧
      st'.reached6 = T.reached6) ∨
    ((∃ env, oc = .helperRun env) ∨ oc = .crash) ∧
      ∃ r1, rest.drop n = 0 :: r1 ∧ cfg.helper = true ∧
        T.spooling + c0 = 6 ∧
        runHelper (addMsg
          { chmod600 (writeTarget T tgt (rest.take n)) tgt with
            spooling := (writeTarget T tgt (rest.take n)).spooling + c0,
            receipts := (writeTarget T tgt (rest.take n)).receipts ++ [c0],
            reached6 := true } .ack) = .done st' oc := by
  have hWsp : ∀ p : List Nat, (writeTarget T tgt p).spooling = T.spooling := by
    intro p
    cases tgt with
    | file fn => simp [writeTarget]
    | sinkT => simp [writeTarget]
    | discard => simp [writeTarget]
  have hWfields : ∀ p : List Nat, (writeTarget T tgt p).receipts = T.receipts ∧
      (writeTarget T tgt p).reached6 = T.reached6 := by
    intro p
    cases tgt with
    | file fn => simp [writeTarget]
    | sinkT => simp [writeTarget]
    | discard => simp [writeTarget]
  by_cases hmin : min n rest.length ≠ n
  · rw [transfer_eq_short hmin] at h
    have hc' := (StepRes.done.injEq _ _ _ _).mp h
    rw [← hc'.1, hc'.2]
    left
    refine ⟨rfl, ?_, ?_, ?_⟩ <;>
      simp [cleanup_fields, addMsg, hWsp _, (hWfields _).1, (hWfields _).2]
  · push_neg at hmin
    have hn : n ≤ rest.length := by
      rcases Nat.le_total n rest.length with h' | h'
      · exact h'
      · have := Nat.min_eq_right h'
        omega
    rcases hd : rest.drop n with _ | ⟨a, r1⟩
    · rw [transfer_eq_noack hn hd] at h
      have hc' := (StepRes.done.injEq _ _ _ _).mp h
      rw [← hc'.1, hc'.2]
      left
      refine ⟨rfl, ?_, ?_, ?_⟩ <;>
        simp [cleanup_fields, hWsp _, (hWfields _).1, (hWfields _).2]
    · by_cases ha : a ≠ 0
      · rw [transfer_eq_badack hn hd ha] at h
        have hc' := (StepRes.done.injEq _ _ _ _).mp h
        rw [← hc'.1, hc'.2]
        left
        refine ⟨rfl, ?_, ?_, ?_⟩ <;>
          simp [cleanup_fields, hWsp _, (hWfields _).1, (hWfields _).2]
      · push_neg at ha
        subst ha
        rw [transfer_eq_ok hd] at h
        have hDsp : (writeTarget T tgt (rest.take n)).spooling ≠ 0 := by
          rw [hWsp _]; exact hTsp
        by_cases h6 : (writeTarget T tgt (rest.take n)).spooling + c0 = 6
        · by_cases hh : cfg.helper = true
          · rw [finish_eq_6_helper hDsp h6 hh] at h
            right
            exact ⟨runHelper_oc h, r1, rfl, hh,
              by rw [← hWsp (rest.take n)]; exact h6, h⟩
          · have hh' : cfg.helper = false := by
              cases hv : cfg.helper
              · rfl
              · exact absurd hv hh
            rw [finish_eq_6_nohelper hDsp h6 hh'] at h
            simp at h
        · rw [finish_eq_not6 hDsp h6] at h
          simp at h

theorem readStdin_none_iff {input : List Nat} :
    readStdin input = none ↔ input = [] := by
  unfold readStdin
  cases input <;> simp

/-- Characterization of a session-ending iteration from the open phase on,
for a valid subcommand byte. -/
theorem done_core {cfg : Config} {S : Sess} {c0 n : Nat}
    {fname rest : List Nat} {st' : Sess} {oc : Outcome}
    (hc : c0 = 2 ∨ c0 = 3)
    (h : openAndCopy cfg S c0 n fname rest = .done st' oc) :
    oc ≠ .success ∧
    (oc = .failure →
      st'.spooling = S.spooling ∧ st'.receipts = S.receipts ∧
      st'.reached6 = S.reached6 ∧
      (S.spooling = 0 → st'.fs = S.fs ∧ st'.created = S.created ∧
        st'.fname0 = S.fname0 ∧ st'.fname1 = S.fname1)) ∧
    (oc = .died →
      S.spooling = 0 ∧ st'.spooling = S.spooling ∧ st'.fs = S.fs ∧
      st'.created = S.created ∧ st'.fname0 = S.fname0 ∧
      st'.fname1 = S.fname1 ∧ st'.receipts = S.receipts ∧
      st'.reached6 = S.reached6) ∧
    (((∃ env, oc = .helperRun env) ∨ oc = .crash) →
      cfg.helper = true ∧ S.spooling ≠ 0 ∧
      ∃ c1 fn n1 payload stm,
        (c1 = 2 ∨ c1 = 3) ∧ fn ≠ [] ∧ fn ∉ S.fs.map SpoolFile.name ∧
        payload.length = n1 ∧
        stm.fs = S.fs ++ [SpoolFile.mk fn n1 payload true] ∧
        stm.created = S.created ++ [fn] ∧
        stm.spooling = S.spooling + c1 ∧ stm.spooling = 6 ∧
        stm.receipts = S.receipts ++ [c1] ∧
        (c1 = 2 → stm.fname0 = some fn ∧ stm.fname1 = S.fname1) ∧
        (c1 = 3 → stm.fname1 = some fn ∧ stm.fname0 = S.fname0) ∧
        stm.reached6 = true ∧
        runHelper stm = .done st' oc) := by
  by_cases hsp : S.spooling = 0
  · -- sink mode: no helper invocation is possible
    have sinkdone : ∀ tgt : Target, tgt = Target.sinkT ∨ tgt = Target.discard →
        transfer cfg S c0 n tgt rest = .done st' oc →
        oc ≠ .success ∧
        (oc = .failure →
          st'.spooling = S.spooling ∧ st'.receipts = S.receipts ∧
          st'.reached6 = S.reached6 ∧
          (S.spooling = 0 → st'.fs = S.fs ∧ st'.created = S.created ∧
            st'.fname0 = S.fname0 ∧ st'.fname1 = S.fname1)) ∧
        (oc = .died →
          S.spooling = 0 ∧ st'.spooling = S.spooling ∧ st'.fs = S.fs ∧
          st'.created = S.created ∧ st'.fname0 = S.fname0 ∧
          st'.fname1 = S.fname1 ∧ st'.receipts = S.receipts ∧
          st'.reached6 = S.reached6) ∧
        (((∃ env, oc = .helperRun env) ∨ oc = .crash) →
          cfg.helper = true ∧ S.spooling ≠ 0 ∧
          ∃ c1 fn n1 payload stm,
            (c1 = 2 ∨ c1 = 3) ∧ fn ≠ [] ∧ fn ∉ S.fs.map SpoolFile.name ∧
            payload.length = n1 ∧
            stm.fs = S.fs ++ [SpoolFile.mk fn n1 payload true] ∧
            stm.created = S.created ++ [fn] ∧
            stm.spooling = S.spooling + c1 ∧ stm.spooling = 6 ∧
            stm.receipts = S.receipts ++ [c1] ∧
            (c1 = 2 → stm.fname0 = some fn ∧ stm.fname1 = S.fname1) ∧
            (c1 = 3 → stm.fname1 = some fn ∧ stm.fname0 = S.fname0) ∧
            stm.reached6 = true ∧
            runHelper stm = .done st' oc) := by
      intro tgt htgt htr
      obtain ⟨hoc, hfields⟩ := And.intro (transfer_done_char hsp htgt htr).1
        (transfer_done_char hsp htgt htr).2
      subst hoc
      refine ⟨by simp, fun _ => ⟨hfields.1, hfields.2.1, hfields.2.2.1,
        fun _ => ⟨hfields.2.2.2.1, hfields.2.2.2.2.1,
          hfields.2.2.2.2.2.1, hfields.2.2.2.2.2.2⟩⟩,
        by intro hx; simp at hx, ?_⟩
      intro hx
      rcases hx with ⟨env, hx⟩ | hx <;> simp at hx
    rcases hc with hc | hc <;> subst hc
    · rw [openAndCopy_eq_sinkctrl hsp] at h
      exact sinkdone .discard (Or.inr rfl) h
    · by_cases hse : cfg.sinkExists = true
      · rw [openAndCopy_eq_sinkdata hsp hse] at h
        exact sinkdone .sinkT (Or.inl rfl) h
      · have hse' : cfg.sinkExists = false := by
          cases hv : cfg.sinkExists
          · rfl
          · exact absurd hv hse
        rw [openAndCopy_eq_sinkdie hsp hse'] at h
        have hcc := (StepRes.done.injEq _ _ _ _).mp h
        rw [← hcc.1, ← hcc.2]
        refine ⟨by simp, by intro hx; simp at hx, ?_, ?_⟩
        · intro _
          exact ⟨hsp, rfl, rfl, rfl, rfl, rfl, rfl, rfl⟩
        · intro hx
          rcases hx with ⟨env, hx⟩ | hx <;> simp at hx
  · -- spooling mode
    by_cases hof : sane fname = [] ∨ sane fname ∈ S.fs.map SpoolFile.name
    · rw [openAndCopy_eq_openfail hsp hof] at h
      have hcc := (StepRes.done.injEq _ _ _ _).mp h
      rw [← hcc.1, ← hcc.2]
      refine ⟨by simp, ?_, by intro hx; simp at hx, ?_⟩
      · intro _
        refine ⟨by simp [cleanup_fields, addMsg],
          by simp [cleanup_fields, addMsg],
          by simp [cleanup_fields, addMsg],
          fun hs0 => absurd hs0 hsp⟩
      · intro hx
        rcases hx with ⟨env, hx⟩ | hx <;> simp at hx
    · push_neg at hof
      rw [openAndCopy_eq_create hsp hof.1 hof.2] at h
      rcases hc with hc | hc <;> subst hc
      · -- control file
        rw [if_pos rfl] at h
        have hdone := transfer_done_spool_char (by simpa using hsp)
          (Or.inl rfl) (by intro fn hfn; simp [writeTarget]) h
        rcases hdone with ⟨hoc, hfsp, hfr, hf6⟩ | ⟨hocr, r1, hd, hh, h6, hrun⟩
        · subst hoc
          refine ⟨by simp, ?_, by intro hx; simp at hx, ?_⟩
          · intro _
            exact ⟨hfsp, hfr, hf6, fun hs0 => absurd hs0 hsp⟩
          · intro hx
            rcases hx with ⟨env, hx⟩ | hx <;> simp at hx
        · have hlen : (rest.take n).length = n := by
            have := congrArg List.length hd
            simp at this
            simp
            omega
          have hocns : oc ≠ .success := by
            rcases hocr with ⟨env, he⟩ | he <;> rw [he] <;> simp
          have hocnf : oc ≠ .failure := by
            rcases hocr with ⟨env, he⟩ | he <;> rw [he] <;> simp
          have hocnd : oc ≠ .died := by
            rcases hocr with ⟨env, he⟩ | he <;> rw [he] <;> simp
          refine ⟨hocns, fun hx => absurd hx hocnf,
            fun hx => absurd hx hocnd, fun _ => ⟨hh, hsp, ?_⟩⟩
          refine ⟨2, sane fname, n, rest.take n, _, Or.inl rfl, hof.1, hof.2,
            hlen, ?_, ?_, ?_, ?_, ?_, ?_, ?_, ?_, hrun⟩
          · simp [addMsg, writeTarget, chmod600,
              update_fs_append S.fs (sane fname) n (rest.take n) hof.2,
              chmod_fs_append S.fs (sane fname) n (rest.take n) hof.2]
          · simp [addMsg, writeTarget, chmod600]
          · simp [addMsg, writeTarget, chmod600]
          · exact h6
          · simp [addMsg, writeTarget, chmod600]
          · intro _
            constructor <;> simp [addMsg, writeTarget, chmod600]
          · intro hx
            simp at hx
          · simp [addMsg]
      · -- data file
        rw [if_neg (by omega)] at h
        have hdone := transfer_done_spool_char (by simpa using hsp)
          (Or.inr rfl) (by intro fn hfn; simp [writeTarget]) h
        rcases hdone with ⟨hoc, hfsp, hfr, hf6⟩ | ⟨hocr, r1, hd, hh, h6, hrun⟩
        · subst hoc
          refine ⟨by simp, ?_, by intro hx; simp at hx, ?_⟩
          · intro _
            exact ⟨hfsp, hfr, hf6, fun hs0 => absurd hs0 hsp⟩
          · intro hx
            rcases hx with ⟨env, hx⟩ | hx <;> simp at hx
        · have hlen : (rest.take n).length = n := by
            have := congrArg List.length hd
            simp at this
            simp
            omega
          have hocns : oc ≠ .success := by
            rcases hocr with ⟨env, he⟩ | he <;> rw [he] <;> simp
          have hocnf : oc ≠ .failure := by
            rcases hocr with ⟨env, he⟩ | he <;> rw [he] <;> simp
          have hocnd : oc ≠ .died := by
            rcases hocr with ⟨env, he⟩ | he <;> rw [he] <;> simp
          refine ⟨hocns, fun hx => absurd hx hocnf,
            fun hx => absurd hx hocnd, fun _ => ⟨hh, hsp, ?_⟩⟩
          refine ⟨3, sane fname, n, rest.take n, _, Or.inr rfl, hof.1, hof.2,
            hlen, ?_, ?_, ?_, ?_, ?_, ?_, ?_, ?_, hrun⟩
          · simp [addMsg, writeTarget, chmod600,
              update_fs_append S.fs (sane fname) n (rest.take n) hof.2,
              chmod_fs_append S.fs (sane fname) n (rest.take n) hof.2]
          · simp [addMsg, writeTarget, chmod600]
          · simp [addMsg, writeTarget, chmod600]
          · exact h6
          · simp [addMsg, writeTarget, chmod600]
          · intro hx
            simp at hx
          · intro _
            constructor <;> simp [addMsg, writeTarget, chmod600]
          · simp [addMsg]

/-- Characterization of every session-ending iteration. -/
theorem step_done_props {cfg : Config} {st : Sess} {input : List Nat}
    {st' : Sess} {oc : Outcome}
    (h : step cfg st input = .done st' oc) :
    (oc = .success →
      input = [] ∧ st.spooling = 0 ∧ st'.spooling = 0 ∧ st'.fs = st.fs ∧
      st'.created = st.created ∧ st'.fname0 = st.fname0 ∧
      st'.fname1 = st.fname1 ∧ st'.receipts = st.receipts ∧
      st'.reached6 = st.reached6) ∧
    (oc = .failure →
      st'.spooling = st.spooling ∧ st'.receipts = st.receipts ∧
      st'.reached6 = st.reached6 ∧
      (st.spooling = 0 → st'.fs = st.fs ∧ st'.created = st.created ∧
        st'.fname0 = st.fname0 ∧ st'.fname1 = st.fname1)) ∧
    (oc = .died →
      st.spooling = 0 ∧ st'.spooling = st.spooling ∧ st'.fs = st.fs ∧
      st'.created = st.created ∧ st'.fname0 = st.fname0 ∧
      st'.fname1 = st.fname1 ∧ st'.receipts = st.receipts ∧
      st'.reached6 = st.reached6) ∧
    (((∃ env, oc = .helperRun env) ∨ oc = .crash) →
      cfg.helper = true ∧ st.spooling ≠ 0 ∧
      ∃ c0 fn n payload stm,
        (c0 = 2 ∨ c0 = 3) ∧ fn ≠ [] ∧ fn ∉ st.fs.map SpoolFile.name ∧
        payload.length = n ∧
        stm.fs = st.fs ++ [SpoolFile.mk fn n payload true] ∧
        stm.created = st.created ++ [fn] ∧
        stm.spooling = st.spooling + c0 ∧ stm.spooling = 6 ∧
        stm.receipts = st.receipts ++ [c0] ∧
        (c0 = 2 → stm.fname0 = some fn ∧ stm.fname1 = st.fname1) ∧
        (c0 = 3 → stm.fname1 = some fn ∧ stm.fname0 = st.fname0) ∧
        stm.reached6 = true ∧
        runHelper stm = .done st' oc) := by
  -- common discharge for all plain-failure endings
  have failcase : ∀ X : Sess, st' = cleanup X → oc = .failure →
      X.spooling = st.spooling → X.receipts = st.receipts →
      X.reached6 = st.reached6 →
      (st.spooling = 0 → X.fs = st.fs ∧ X.created = st.created ∧
        X.fname0 = st.fname0 ∧ X.fname1 = st.fname1) →
      (oc = .success →
        input = [] ∧ st.spooling = 0 ∧ st'.spooling = 0 ∧ st'.fs = st.fs ∧
        st'.created = st.created ∧ st'.fname0 = st.fname0 ∧
        st'.fname1 = st.fname1 ∧ st'.receipts = st.receipts ∧
        st'.reached6 = st.reached6) ∧
      (oc = .failure →
        st'.spooling = st.spooling ∧ st'.receipts = st.receipts ∧
        st'.reached6 = st.reached6 ∧
        (st.spooling = 0 → st'.fs = st.fs ∧ st'.created = st.created ∧
          st'.fname0 = st.fname0 ∧ st'.fname1 = st.fname1)) ∧
      (oc = .died →
        st.spooling = 0 ∧ st'.spooling = st.spooling ∧ st'.fs = st.fs ∧
        st'.created = st.created ∧ st'.fname0 = st.fname0 ∧
        st'.fname1 = st.fname1 ∧ st'.receipts = st.receipts ∧
        st'.reached6 = st.reached6) ∧
      (((∃ env, oc = .helperRun env) ∨ oc = .crash) →
        cfg.helper = true ∧ st.spooling ≠ 0 ∧
        ∃ c0 fn n payload stm,
          (c0 = 2 ∨ c0 = 3) ∧ fn ≠ [] ∧ fn ∉ st.fs.map SpoolFile.name ∧
          payload.length = n ∧
          stm.fs = st.fs ++ [SpoolFile.mk fn n payload true] ∧
          stm.created = st.created ++ [fn] ∧
          stm.spooling = st.spooling + c0 ∧ stm.spooling = 6 ∧
          stm.receipts = st.receipts ++ [c0] ∧
          (c0 = 2 → stm.fname0 = some fn ∧ stm.fname1 = st.fname1) ∧
          (c0 = 3 → stm.fname1 = some fn ∧ stm.fname0 = st.fname0) ∧
          stm.reached6 = true ∧
          runHelper stm = .done st' oc) := by
    intro X hst hoc hXsp hXr hX6 hXsink
    subst hst
    subst hoc
    refine ⟨by intro hx; simp at hx, ?_, by intro hx; simp at hx, ?_⟩
    · intro _
      refine ⟨by rw [(cleanup_fields X).1, hXsp],
        by rw [(cleanup_fields X).2.2.2.2.2.2.2.1, hXr],
        by rw [(cleanup_fields X).2.2.2.2.2.2.2.2, hX6], ?_⟩
      intro hs0
      have hX0 : X.spooling = 0 := by rw [hXsp, hs0]
      rw [cleanup_sink hX0]
      exact (hXsink hs0)
    · intro hx
      rcases hx with ⟨env, hx⟩ | hx <;> simp at hx
  rcases hr : readStdin input with _ | ⟨line, rest⟩
  · have hin : input = [] := readStdin_none_iff.mp hr
    by_cases hsp : st.spooling = 0
    · rw [hin, step_eq_eof_sink hsp] at h
      have hc := (StepRes.done.injEq _ _ _ _).mp h
      rw [← hc.1, ← hc.2]
      refine ⟨?_, by intro hx; simp at hx, by intro hx; simp at hx, ?_⟩
      · intro _
        exact ⟨hin, hsp, by simp [addMsg, hsp], by simp [addMsg],
          by simp [addMsg], by simp [addMsg], by simp [addMsg],
          by simp [addMsg], by simp [addMsg]⟩
      · intro hx
        rcases hx with ⟨env, hx⟩ | hx <;> simp at hx
    · rw [hin, step_eq_eof_spool hsp] at h
      have hc := (StepRes.done.injEq _ _ _ _).mp h
      exact failcase _ hc.1.symm hc.2.symm (by simp [addMsg])
        (by simp [addMsg]) (by simp [addMsg]) (fun hs0 => absurd hs0 hsp)
  · rw [step_eq_read hr] at h
    by_cases hc : subcmdByte line = 2 ∨ subcmdByte line = 3
    · by_cases hdup : (addMsg st .ack).seen &&& (subcmdByte line - 1) ≠ 0
      · rw [handleCmd_eq_dup hc hdup] at h
        have hcc := (StepRes.done.injEq _ _ _ _).mp h
        exact failcase _ hcc.1.symm hcc.2.symm (by simp [addMsg])
          (by simp [addMsg]) (by simp [addMsg])
          (fun _ => by simp [addMsg])
      · push_neg at hdup
        by_cases hf : 32 ∈ subcmdLine line
        · rcases hn : parseLen (subcmdLenField line) with _ | n
          · rw [handleCmd_eq_badLength hc hdup hf hn] at h
            have hcc := (StepRes.done.injEq _ _ _ _).mp h
            exact failcase _ hcc.1.symm hcc.2.symm (by simp [addMsg])
              (by simp [addMsg]) (by simp [addMsg])
              (fun _ => by simp [addMsg])
          · rcases hc with hc | hc
            · by_cases hbig : 16 * 1024 < n
              · rw [handleCmd_eq_tooBig hc (by rw [hc] at hdup; exact hdup)
                  hf hn hbig] at h
                have hcc := (StepRes.done.injEq _ _ _ _).mp h
                exact failcase _ hcc.1.symm hcc.2.symm (by simp [addMsg])
                  (by simp [addMsg]) (by simp [addMsg])
                  (fun _ => by simp [addMsg])
              · rw [handleCmd_eq_ctrlgo hc (by rw [hc] at hdup; exact hdup)
                  hf hn (by omega)] at h
                have hgo := done_core (Or.inl rfl) h
                exact ⟨fun hoc => absurd hoc hgo.1, hgo.2.1, hgo.2.2.1,
                  hgo.2.2.2⟩
            · rw [handleCmd_eq_datago hc (by rw [hc] at hdup; exact hdup)
                hf hn] at h
              have hgo := done_core (Or.inr rfl) h
              exact ⟨fun hoc => absurd hoc hgo.1, hgo.2.1, hgo.2.2.1,
                hgo.2.2.2⟩
        · rw [handleCmd_eq_badFname hc hdup hf] at h
          have hcc := (StepRes.done.injEq _ _ _ _).mp h
          exact failcase _ hcc.1.symm hcc.2.symm (by simp [addMsg])
            (by simp [addMsg]) (by simp [addMsg])
            (fun _ => by simp [addMsg])
    · push_neg at hc
      rw [handleCmd_eq_unsupported hc.1 hc.2] at h
      have hcc := (StepRes.done.injEq _ _ _ _).mp h
      exact failcase _ hcc.1.symm hcc.2.symm (by simp [addMsg])
        (by simp [addMsg]) (by simp [addMsg]) (fun _ => by simp [addMsg])

end ShapeLemmas

section Invariant

/-- The session invariant at the top of each loop iteration, relative to the
queue directory's contents `fs0` when the session began: sink mode leaves the
directory untouched; in spooling mode the dump state is one plus the sum of
the receipt bytes; recorded filenames point to files this session created;
the two recorded names differ; every file this session created and kept is
committed (mode 0600) with exactly its declared length; a receipt of each
type implies its filename slot is set. -/
def Inv (fs0 : List SpoolFile) (st : Sess) : Prop :=
  (st.spooling = 0 → st.fs = fs0 ∧ st.created = [] ∧ st.fname0 = none ∧
    st.fname1 = none ∧ st.receipts = []) ∧
  (st.spooling ≠ 0 → st.spooling = 1 + st.receipts.sum) ∧
  (∀ r ∈ st.receipts, r = 2 ∨ r = 3) ∧
  (∀ a, st.fname0 = some a → a ∈ st.created ∧ ∃ f ∈ st.fs, f.name = a) ∧
  (∀ b, st.fname1 = some b → b ∈ st.created ∧ ∃ f ∈ st.fs, f.name = b) ∧
  (∀ a b, st.fname0 = some a → st.fname1 = some b → a ≠ b) ∧
  (∀ f ∈ st.fs, f.name ∈ st.created → f.mode600 = true ∧
    f.content.length = f.declared) ∧
  (2 ∈ st.receipts → st.fname0.isSome) ∧
  (3 ∈ st.receipts → st.fname1.isSome)

theorem Inv_init (cfg : Config) (fs0 : List SpoolFile) :
    Inv fs0 (initSess (if cfg.queueIsDir then 1 else 0) fs0) := by
  unfold Inv initSess
  by_cases hq : cfg.queueIsDir <;> simp [hq]

theorem Inv_preserved {cfg : Config} {fs0 : List SpoolFile} {st : Sess}
    {input : List Nat} {st' : Sess} {rest : List Nat}
    (hI : Inv fs0 st) (h : step cfg st input = .cont st' rest) :
    Inv fs0 st' := by
  obtain ⟨hsink, hspool, _, _⟩ := step_cont_props h
  by_cases hsp : st.spooling = 0
  · obtain ⟨hsp', hfs, hcr, hf0, hf1, hrc, _⟩ := hsink hsp
    unfold Inv
    rw [hsp', hfs, hcr, hf0, hf1, hrc]
    unfold Inv at hI
    rw [hsp] at hI
    exact hI
  · obtain ⟨c0, fn, n, payload, hc, hfn1, hfn2, hplen, hfs, hcr, hsp',
      hrc, hn0, hn1⟩ := hspool hsp
    obtain ⟨i1, i2, i3, i4, i5, i6, i7, i8, i9⟩ := hI
    have hc0pos : 2 ≤ c0 := by rcases hc with hc | hc <;> omega
    refine ⟨?_, ?_, ?_, ?_, ?_, ?_, ?_, ?_, ?_⟩
    · intro h0
      rw [hsp'] at h0
      omega
    · intro _
      rw [hsp', hrc, List.sum_append]
      have := i2 hsp
      simp
      omega
    · intro r hr
      rw [hrc] at hr
      rcases List.mem_append.mp hr with hr | hr
      · exact i3 r hr
      · simp at hr
        rw [hr]
        exact hc
    · intro a ha
      rcases hc with hc | hc
      · rw [(hn0 hc).1] at ha
        have haf : a = fn := by
          exact (Option.some.inj ha).symm
        subst haf
        refine ⟨by rw [hcr]; simp, ?_⟩
        rw [hfs]
        exact ⟨SpoolFile.mk a n payload true, by simp⟩
      · rw [(hn1 hc).2] at ha
        obtain ⟨hmem, f, hfmem, hfname⟩ := i4 a ha
        refine ⟨by rw [hcr]; exact List.mem_append_left _ hmem,
          f, by rw [hfs]; exact List.mem_append_left _ hfmem, hfname⟩
    · intro b hb
      rcases hc with hc | hc
      · rw [(hn0 hc).2] at hb
        obtain ⟨hmem, f, hfmem, hfname⟩ := i5 b hb
        refine ⟨by rw [hcr]; exact List.mem_append_left _ hmem,
          f, by rw [hfs]; exact List.mem_append_left _ hfmem, hfname⟩
      · rw [(hn1 hc).1] at hb
        have hbf : b = fn := (Option.some.inj hb).symm
        subst hbf
        refine ⟨by rw [hcr]; simp, ?_⟩
        rw [hfs]
        exact ⟨SpoolFile.mk b n payload true, by simp⟩
    · intro a b ha hb
      rcases hc with hc | hc
      · rw [(hn0 hc).1] at ha
        rw [(hn0 hc).2] at hb
        have haf : a = fn := (Option.some.inj ha).symm
        subst haf
        obtain ⟨_, f, hfmem, hfname⟩ := i5 b hb
        intro hab
        apply hfn2
        rw [hab, ← hfname]
        exact List.mem_map_of_mem SpoolFile.name hfmem
      · rw [(hn1 hc).2] at ha
        rw [(hn1 hc).1] at hb
        have hbf : b = fn := (Option.some.inj hb).symm
        subst hbf
        obtain ⟨_, f, hfmem, hfname⟩ := i4 a ha
        intro hab
        apply hfn2
        rw [← hab, ← hfname]
        exact List.mem_map_of_mem SpoolFile.name hfmem
    · intro f hf hname
      rw [hfs] at hf
      rw [hcr] at hname
      rcases List.mem_append.mp hf with hf | hf
      · rcases List.mem_append.mp hname with hname | hname
        · exact i7 f hf hname
        · simp at hname
          exfalso
          apply hfn2
          rw [← hname]
          exact List.mem_map_of_mem SpoolFile.name hf
      · simp at hf
        rw [hf]
        simp [hplen]
    · intro h2
      rw [hrc] at h2
      rcases hc with hc | hc
      · rw [(hn0 hc).1]
        simp
      · rw [(hn1 hc).2]
        rcases List.mem_append.mp h2 with h2 | h2
        · exact i8 h2
        · simp at h2
          omega
    · intro h3
      rw [hrc] at h3
      rcases hc with hc | hc
      · rw [(hn0 hc).2]
        rcases List.mem_append.mp h3 with h3 | h3
        · exact i9 h3
        · simp at h3
          omega
      · rw [(hn1 hc).1]
        simp

theorem receipts_sum_counts :
    ∀ rs : List Nat, (∀ r ∈ rs, r = 2 ∨ r = 3) →
      rs.sum = 2 * rs.count 2 + 3 * rs.count 3 := by
  intro rs
  induction rs with
  | nil => intro _; simp
  | cons a t ih =>
    intro h
    have ha := h a (by simp)
    have ht := ih (fun r hr => h r (by simp [hr]))
    rcases ha with ha | ha <;> subst ha <;>
      simp [List.count_cons, ht] <;> ring

theorem find_name {cn : List Nat} :
    ∀ fs : List SpoolFile, (∃ f ∈ fs, f.name = cn) →
      ∃ f, fs.find? (fun f => f.name == cn) = some f ∧ f.name = cn := by
  intro fs
  induction fs with
  | nil => intro h; simp at h
  | cons g t ih =>
    intro h
    by_cases hg : g.name = cn
    · refine ⟨g, ?_, hg⟩
      have hb : (g.name == cn) = true := beq_iff_eq.mpr hg
      simp [List.find?, hb]
    · have hb : (g.name == cn) = false := beq_eq_false_iff_ne.mpr hg
      obtain ⟨f, hf, hfn⟩ := h
      simp at hf
      rcases hf with hf | hf
      · rw [hf] at hfn
        exact absurd hfn hg
      · obtain ⟨f', hf'1, hf'2⟩ := ih ⟨f, hf, hfn⟩
        refine ⟨f', ?_, hf'2⟩
        simp [List.find?, hb, hf'1]

theorem mem_unlinkFs {fs : List SpoolFile} {f : SpoolFile} {cn : List Nat}
    (hf : f ∈ fs) (hne : f.name ≠ cn) : f ∈ unlinkFs fs cn := by
  simp [unlinkFs, List.mem_filter, hf, hne]

/-- Under the invariant, a session-ending iteration never crashes, and when
it hands over to the helper the final state carries exactly one receipt of
each type, the completion flag, both recorded filenames, and a committed
data file of exactly its declared length (the control file was deleted by
the helper). -/
theorem step_done_helper {cfg : Config} {fs0 : List SpoolFile} {st : Sess}
    {input : List Nat} {st' : Sess} {oc : Outcome}
    (hI : Inv fs0 st) (h : step cfg st input = .done st' oc) :
    oc ≠ .crash ∧
    (∀ env, oc = .helperRun env →
      st'.receipts.count 2 = 1 ∧ st'.receipts.count 3 = 1 ∧
      st'.reached6 = true ∧
      ∃ cn dn, st'.fname0 = some cn ∧ st'.fname1 = some dn ∧ cn ≠ dn ∧
        dn ∈ st'.created ∧
        ∃ f ∈ st'.fs, f.name = dn ∧ f.mode600 = true ∧
          f.content.length = f.declared) := by
  have main : ∀ (hx : (∃ env, oc = .helperRun env) ∨ oc = .crash),
      (∃ env, oc = .helperRun env) ∧
      (st'.receipts.count 2 = 1 ∧ st'.receipts.count 3 = 1 ∧
        st'.reached6 = true ∧
        ∃ cn dn, st'.fname0 = some cn ∧ st'.fname1 = some dn ∧ cn ≠ dn ∧
          dn ∈ st'.created ∧
          ∃ f ∈ st'.fs, f.name = dn ∧ f.mode600 = true ∧
            f.content.length = f.declared) := by
    intro hx
    obtain ⟨_, hspne, c0, fn, n, payload, stm, hc, hfne, hfnin, hplen, hfs,
      hcr, hspeq, hsp6, hrc, hn0, hn1, hr6, hrun⟩ := (step_done_props h).2.2.2 hx
    have hstmem : ∀ r ∈ stm.receipts, r = 2 ∨ r = 3 := by
      intro r hr
      rw [hrc] at hr
      rcases List.mem_append.mp hr with hr | hr
      · exact hI.2.2.1 r hr
      · simp at hr
        rw [hr]
        exact hc
    have hsum : stm.receipts.sum = 5 := by
      have hspsum : st.spooling = 1 + st.receipts.sum := hI.2.1 hspne
      have : stm.receipts.sum = st.receipts.sum + c0 := by
        rw [hrc, List.sum_append]
        simp
      omega
    have hcounts : stm.receipts.count 2 = 1 ∧ stm.receipts.count 3 = 1 := by
      have := receipts_sum_counts stm.receipts hstmem
      omega
    have h2mem : 2 ∈ stm.receipts := by
      have := hcounts.1
      exact List.count_pos_iff.mp (by omega)
    have h3mem : 3 ∈ stm.receipts := by
      have := hcounts.2
      exact List.count_pos_iff.mp (by omega)
    -- both filename slots of stm are set, to different names
    have hboth : ∃ cn dn, stm.fname0 = some cn ∧ stm.fname1 = some dn ∧
        cn ≠ dn ∧ dn ∈ stm.created ∧
        ∃ f ∈ stm.fs, f.name = dn ∧ f.mode600 = true ∧
          f.content.length = f.declared := by
      rcases hc with hc | hc
      · -- this receipt was the control file; the data receipt was earlier
        subst hc
        have h3old : 3 ∈ st.receipts := by
          rw [hrc] at h3mem
          rcases List.mem_append.mp h3mem with hr | hr
          · exact hr
          · simp at hr
        obtain ⟨dn, hdn⟩ := Option.isSome_iff_exists.mp (hI.2.2.2.2.2.2.2.2 h3old)
        obtain ⟨hdncr, fd, hfd, hfdn⟩ := hI.2.2.2.2.1 dn hdn
        refine ⟨fn, dn, (hn0 rfl).1, by rw [(hn0 rfl).2]; exact hdn, ?_, ?_, ?_⟩
        · intro hfd2
          apply hfnin
          rw [hfd2, ← hfdn]
          exact List.mem_map_of_mem SpoolFile.name hfd
        · rw [hcr]
          exact List.mem_append_left _ hdncr
        · obtain ⟨hm6, hlen⟩ := hI.2.2.2.2.2.2.1 fd hfd (by rw [hfdn]; exact hdncr)
          exact ⟨fd, by rw [hfs]; exact List.mem_append_left _ hfd,
            hfdn, hm6, hlen⟩
      · -- this receipt was the data file; the control receipt was earlier
        subst hc
        have h2old : 2 ∈ st.receipts := by
          rw [hrc] at h2mem
          rcases List.mem_append.mp h2mem with hr | hr
          · exact hr
          · simp at hr
        obtain ⟨cn, hcn⟩ := Option.isSome_iff_exists.mp (hI.2.2.2.2.2.2.2.1 h2old)
        obtain ⟨hcncr, fc, hfc, hfcn⟩ := hI.2.2.2.1 cn hcn
        refine ⟨cn, fn, by rw [(hn1 rfl).2]; exact hcn, (hn1 rfl).1, ?_, ?_, ?_⟩
        · intro hcf
          apply hfnin
          rw [← hcf, ← hfcn]
          exact List.mem_map_of_mem SpoolFile.name hfc
        · rw [hcr]
          simp
        · refine ⟨SpoolFile.mk fn n payload true,
            by rw [hfs]; simp, by simp, by simp, by simp [hplen]⟩
    obtain ⟨cn, dn, hcn, hdn, hcndn, hdncr, fdat, hfdat, hfdatn, hfdat6,
      hfdatlen⟩ := hboth
    -- the control file exists in stm.fs, so runHelper succeeds
    have hcnfs : ∃ f ∈ stm.fs, f.name = cn := by
      rcases hc with hc | hc
      · subst hc
        have : cn = fn := (Option.some.inj ((hn0 rfl).1.symm.trans hcn)).symm
        subst this
        exact ⟨SpoolFile.mk cn n payload true, by rw [hfs]; simp, by simp⟩
      · subst hc
        have hcn' : st.fname0 = some cn := by rw [← (hn1 rfl).2]; exact hcn
        obtain ⟨_, fc, hfc, hfcn⟩ := hI.2.2.2.1 cn hcn'
        exact ⟨fc, by rw [hfs]; exact List.mem_append_left _ hfc, hfcn⟩
    obtain ⟨fctl, hfind, hfctln⟩ := find_name stm.fs hcnfs
    rw [runHelper_eq hcn hdn hfind] at hrun
    have hcc := (StepRes.done.injEq _ _ _ _).mp hrun
    refine ⟨⟨_, hcc.2.symm⟩, ?_, ?_, ?_, cn, dn, ?_, ?_, hcndn, ?_, ?_⟩
    · rw [← hcc.1]
      simp [hcounts.1]
    · rw [← hcc.1]
      simp [hcounts.2]
    · rw [← hcc.1]
      simpa using hr6
    · rw [← hcc.1]
      simpa using hcn
    · rw [← hcc.1]
      simpa using hdn
    · rw [← hcc.1]
      simpa using hdncr
    · rw [← hcc.1]
      refine ⟨fdat, ?_, hfdatn, hfdat6, hfdatlen⟩
      show fdat ∈ unlinkFs stm.fs cn
      exact mem_unlinkFs hfdat (by rw [hfdatn]; exact fun hx => hcndn hx.symm)
  constructor
  · intro hoc
    obtain ⟨⟨env, henv⟩, _⟩ := main (Or.inr hoc)
    rw [hoc] at henv
    simp at henv
  · intro env hoc
    exact (main (Or.inl ⟨env, hoc⟩)).2

end Invariant

section RunLemmas

theorem run_done {cfg : Config} {st : Sess} {input : List Nat} {st' : Sess}
    {oc : Outcome} (h : step cfg st input = .done st' oc) :
    run cfg st input = (st', oc) := by
  rw [run]
  split
  · rename_i heq
    rw [h] at heq
    have hcc := (StepRes.done.injEq _ _ _ _).mp heq
    rw [← hcc.1, ← hcc.2]
  · rename_i heq
    rw [h] at heq
    simp at heq

theorem run_cont {cfg : Config} {st : Sess} {input : List Nat} {st' : Sess}
    {rest : List Nat} (h : step cfg st input = .cont st' rest) :
    run cfg st input = run cfg st' rest := by
  rw [run]
  split
  · rename_i heq
    rw [h] at heq
    simp at heq
  · rename_i heq
    rw [h] at heq
    have := (StepRes.cont.injEq _ _ _ _).mp heq
    rw [this.1, this.2]

/-- In sink mode the loop never touches the queue directory, never records a
job filename, and ends only by plain process exit (never by helper exec or
undefined behaviour). -/
theorem run_sink_frame (cfg : Config) :
    ∀ (N : Nat) (input : List Nat), input.length ≤ N →
      ∀ st : Sess, st.spooling = 0 →
        (run cfg st input).1.fs = st.fs ∧
        (run cfg st input).1.created = st.created ∧
        (run cfg st input).1.fname0 = st.fname0 ∧
        (run cfg st input).1.fname1 = st.fname1 ∧
        ((run cfg st input).2 = .success ∨ (run cfg st input).2 = .failure ∨
          (run cfg st input).2 = .died) := by
  intro N
  induction N with
  | zero =>
    intro input hlen st hsp
    rcases hstep : step cfg st input with ⟨st', oc⟩ | ⟨st', rest⟩
    · rw [run_done hstep]
      obtain ⟨d1, d2, d3, d4⟩ := step_done_props hstep
      cases oc with
      | success =>
        obtain ⟨_, _, _, hfs, hcr, h0, h1, _, _⟩ := d1 rfl
        exact ⟨hfs, hcr, h0, h1, Or.inl rfl⟩
      | failure =>
        obtain ⟨_, _, _, hfr⟩ := d2 rfl
        obtain ⟨hfs, hcr, h0, h1⟩ := hfr hsp
        exact ⟨hfs, hcr, h0, h1, Or.inr (Or.inl rfl)⟩
      | died =>
        obtain ⟨_, _, hfs, hcr, h0, h1, _, _⟩ := d3 rfl
        exact ⟨hfs, hcr, h0, h1, Or.inr (Or.inr rfl)⟩
      | helperRun env => exact absurd hsp (d4 (Or.inl ⟨env, rfl⟩)).2.1
      | crash => exact absurd hsp (d4 (Or.inr rfl)).2.1
    · have := step_cont_lt hstep
      omega
  | succ k ih =>
    intro input hlen st hsp
    rcases hstep : step cfg st input with ⟨st', oc⟩ | ⟨st', rest⟩
    · rw [run_done hstep]
      obtain ⟨d1, d2, d3, d4⟩ := step_done_props hstep
      cases oc with
      | success =>
        obtain ⟨_, _, _, hfs, hcr, h0, h1, _, _⟩ := d1 rfl
        exact ⟨hfs, hcr, h0, h1, Or.inl rfl⟩
      | failure =>
        obtain ⟨_, _, _, hfr⟩ := d2 rfl
        obtain ⟨hfs, hcr, h0, h1⟩ := hfr hsp
        exact ⟨hfs, hcr, h0, h1, Or.inr (Or.inl rfl)⟩
      | died =>
        obtain ⟨_, _, hfs, hcr, h0, h1, _, _⟩ := d3 rfl
        exact ⟨hfs, hcr, h0, h1, Or.inr (Or.inr rfl)⟩
      | helperRun env => exact absurd hsp (d4 (Or.inl ⟨env, rfl⟩)).2.1
      | crash => exact absurd hsp (d4 (Or.inr rfl)).2.1
    · rw [run_cont hstep]
      obtain ⟨hsnk, _, _, _⟩ := step_cont_props hstep
      obtain ⟨hsp', hfs, hcr, h0, h1, _, _⟩ := hsnk hsp
      have hlen' : rest.length ≤ k := by
        have := step_cont_lt hstep
        omega
      obtain ⟨rfs, rcr, r0, r1, roc⟩ := ih rest hlen' st' hsp'
      exact ⟨by rw [rfs, hfs], by rw [rcr, hcr], by rw [r0, h0],
        by rw [r1, h1], roc⟩

/-- The loop returns EXIT_SUCCESS only from sink mode (the spooling flag
never returns to zero once set). -/
theorem run_success_sink (cfg : Config) :
    ∀ (N : Nat) (input : List Nat), input.length ≤ N →
      ∀ st : Sess, (run cfg st input).2 = .success → st.spooling = 0 := by
  intro N
  induction N with
  | zero =>
    intro input hlen st hs
    rcases hstep : step cfg st input with ⟨st', oc⟩ | ⟨st', rest⟩
    · rw [run_done hstep] at hs
      simp at hs
      rw [hs] at hstep
      exact ((step_done_props hstep).1 rfl).2.1
    · have := step_cont_lt hstep
      omega
  | succ k ih =>
    intro input hlen st hs
    rcases hstep : step cfg st input with ⟨st', oc⟩ | ⟨st', rest⟩
    · rw [run_done hstep] at hs
      simp at hs
      rw [hs] at hstep
      exact ((step_done_props hstep).1 rfl).2.1
    · rw [run_cont hstep] at hs
      have hlen' : rest.length ≤ k := by
        have := step_cont_lt hstep
        omega
      have hsp' := ih rest hlen' st' hs
      by_contra hsp
      obtain ⟨_, hspo, _, _⟩ := step_cont_props hstep
      obtain ⟨c0, _, _, _, hc, _, _, _, _, _, hspeq, _, _, _⟩ := hspo hsp
      rw [hspeq] at hsp'
      rcases hc with hc | hc <;> omega

/-- Under the invariant the loop never reaches undefined behaviour, and a
helper handover leaves exactly one receipt of each type, the completion
flag, both recorded filenames (distinct), and the committed data file of
exactly its declared length. -/
theorem run_helper_exit (cfg : Config) (fs0 : List SpoolFile) :
    ∀ (N : Nat) (input : List Nat), input.length ≤ N →
      ∀ st : Sess, Inv fs0 st →
        (run cfg st input).2 ≠ .crash ∧
        (∀ env, (run cfg st input).2 = .helperRun env →
          (run cfg st input).1.receipts.count 2 = 1 ∧
          (run cfg st input).1.receipts.count 3 = 1 ∧
          (run cfg st input).1.reached6 = true ∧
          ∃ cn dn, (run cfg st input).1.fname0 = some cn ∧
            (run cfg st input).1.fname1 = some dn ∧ cn ≠ dn ∧
            dn ∈ (run cfg st input).1.created ∧
            ∃ f ∈ (run cfg st input).1.fs, f.name = dn ∧ f.mode600 = true ∧
              f.content.length = f.declared) := by
  intro N
  induction N with
  | zero =>
    intro input hlen st hI
    rcases hstep : step cfg st input with ⟨st', oc⟩ | ⟨st', rest⟩
    · rw [run_done hstep]
      exact step_done_helper hI hstep
    · have := step_cont_lt hstep
      omega
  | succ k ih =>
    intro input hlen st hI
    rcases hstep : step cfg st input with ⟨st', oc⟩ | ⟨st', rest⟩
    · rw [run_done hstep]
      exact step_done_helper hI hstep
    · rw [run_cont hstep]
      have hlen' : rest.length ≤ k := by
        have := step_cont_lt hstep
        omega
      exact ih rest hlen' st' (Inv_preserved hI hstep)

/-- With a helper configured, the completion value is reached exactly when
the helper is invoked. -/
theorem run_reached6_iff (cfg : Config) (fs0 : List SpoolFile) :
    ∀ (N : Nat) (input : List Nat), input.length ≤ N →
      ∀ st : Sess, Inv fs0 st → cfg.helper = true → st.reached6 = false →
        ((run cfg st input).1.reached6 = true ↔
          ∃ env, (run cfg st input).2 = .helperRun env) := by
  intro N
  induction N with
  | zero =>
    intro input hlen st hI hh hr6
    rcases hstep : step cfg st input with ⟨st', oc⟩ | ⟨st', rest⟩
    · rw [run_done hstep]
      obtain ⟨d1, d2, d3, _⟩ := step_done_props hstep
      cases oc with
      | success =>
        show st'.reached6 = true ↔ ∃ env, Outcome.success = .helperRun env
        rw [(d1 rfl).2.2.2.2.2.2.2.2, hr6]
        simp
      | failure =>
        show st'.reached6 = true ↔ ∃ env, Outcome.failure = .helperRun env
        rw [(d2 rfl).2.2.1, hr6]
        simp
      | died =>
        show st'.reached6 = true ↔ ∃ env, Outcome.died = .helperRun env
        rw [(d3 rfl).2.2.2.2.2.2.2, hr6]
        simp
      | helperRun env =>
        show st'.reached6 = true ↔
          ∃ env2, Outcome.helperRun env = .helperRun env2
        rw [((step_done_helper hI hstep).2 env rfl).2.2.1]
        simp
      | crash => exact absurd rfl (step_done_helper hI hstep).1
    · have := step_cont_lt hstep
      omega
  | succ k ih =>
    intro input hlen st hI hh hr6
    rcases hstep : step cfg st input with ⟨st', oc⟩ | ⟨st', rest⟩
    · rw [run_done hstep]
      obtain ⟨d1, d2, d3, _⟩ := step_done_props hstep
      cases oc with
      | success =>
        show st'.reached6 = true ↔ ∃ env, Outcome.success = .helperRun env
        rw [(d1 rfl).2.2.2.2.2.2.2.2, hr6]
        simp
      | failure =>
        show st'.reached6 = true ↔ ∃ env, Outcome.failure = .helperRun env
        rw [(d2 rfl).2.2.1, hr6]
        simp
      | died =>
        show st'.reached6 = true ↔ ∃ env, Outcome.died = .helperRun env
        rw [(d3 rfl).2.2.2.2.2.2.2, hr6]
        simp
      | helperRun env =>
        show st'.reached6 = true ↔
          ∃ env2, Outcome.helperRun env = .helperRun env2
        rw [((step_done_helper hI hstep).2 env rfl).2.2.1]
        simp
      | crash => exact absurd rfl (step_done_helper hI hstep).1
    · rw [run_cont hstep]
      have hlen' : rest.length ≤ k := by
        have := step_cont_lt hstep
        omega
      have hr6' : st'.reached6 = false := by
        obtain ⟨_, _, hr, hd⟩ := step_cont_props hstep
        rw [hr, if_neg (hd hh), hr6]
      exact ih rest hlen' st' (Inv_preserved hI hstep) hh hr6'

/-- The entry phase of `lpd_main`: crash on immediate end-of-stream, failure
on a bad first command or empty sanitized queue name, otherwise the loop
from the initial state. -/
theorem lpd_main_cases (cfg : Config) (fs0 : List SpoolFile)
    (input : List Nat) :
    lpd_main cfg fs0 input = (initSess 0 fs0, .crash) ∨
    (∃ b, lpd_main cfg fs0 input =
      (addMsg (initSess 0 fs0) (.unsupported b), .failure)) ∨
    lpd_main cfg fs0 input = (initSess 0 fs0, .failure) ∨
    ∃ lr, readStdin input = some lr ∧
      lpd_main cfg fs0 input =
        run cfg (initSess (if cfg.queueIsDir then 1 else 0) fs0) lr.2 := by
  rcases hr : readStdin input with _ | lr
  · simp only [lpd_main, hr]
    exact Or.inl trivial
  · simp only [lpd_main, hr]
    by_cases hb : (lr.1.takeWhile (fun c => c ≠ 0)).headD 0 ≠ 2
    · rw [if_pos hb]
      exact Or.inr (Or.inl ⟨_, rfl⟩)
    · rw [if_neg hb]
      by_cases hq : sane ((lr.1.takeWhile (fun c => c ≠ 0)).drop 1) = []
      · rw [if_pos hq]
        exact Or.inr (Or.inr (Or.inl rfl))
      · rw [if_neg hq]
        exact Or.inr (Or.inr (Or.inr ⟨lr, rfl, rfl⟩))

end RunLemmas

section ControlParse

theorem parseControl_nil : parseControl [] = [] := by
  rw [parseControl]

theorem parseControl_cons (c : Nat) (q : List Nat) :
    parseControl (c :: q) =
      if isalphaB c = true ∧ 10 ∈ (c :: q).takeWhile (fun b => b ≠ 0) then
        (c, q.takeWhile (fun b => b ≠ 10)) ::
          parseControl ((q.dropWhile (fun b => b ≠ 10)).tail)
      else [] := by
  rw [parseControl]

/-- Control-file content assembled from newline-terminated lines followed by
an unterminated remainder. -/
def mkLines (ls : List (List Nat)) (rest : List Nat) : List Nat :=
  (ls.map (fun l => l ++ [10])).join ++ rest

theorem parseControl_no_newline {rest : List Nat} (hr : 10 ∉ rest) :
    parseControl rest = [] := by
  cases rest with
  | nil => exact parseControl_nil
  | cons c q =>
    rw [parseControl_cons, if_neg]
    intro hx
    exact hr (mem_of_mem_takeWhile hx.2)

/-- The control-file scanner processes exactly the longest prefix of
newline-terminated lines whose first character is alphabetic, turning each
into (first character, rest of line). -/
theorem parseControl_lines :
    ∀ (ls : List (List Nat)) (rest : List Nat),
      (∀ l ∈ ls, 10 ∉ l ∧ 0 ∉ l) → 10 ∉ rest →
      parseControl (mkLines ls rest) =
        (ls.takeWhile (fun l => isalphaB (l.headD 0))).map
          (fun l => (l.headD 0, l.tail)) := by
  intro ls
  induction ls with
  | nil =>
    intro rest _ hr
    rw [show mkLines [] rest = rest by simp [mkLines]]
    rw [parseControl_no_newline hr]
    simp
  | cons l ls ih =>
    intro rest hl hr
    obtain ⟨hl10, hl0⟩ := hl l (by simp)
    have hls : ∀ x ∈ ls, 10 ∉ x ∧ 0 ∉ x := fun x hx => hl x (by simp [hx])
    cases l with
    | nil =>
      rw [show mkLines ([] :: ls) rest = 10 :: mkLines ls rest by
        simp [mkLines]]
      rw [parseControl_cons, if_neg (by intro hx; exact absurd hx.1 (by decide))]
      rw [List.takeWhile_cons, if_neg (by decide)]
      simp
    | cons c v =>
      have hv10 : 10 ∉ v := fun hx => hl10 (by simp [hx])
      have hv0 : ∀ b ∈ v, (fun b => decide (b ≠ 0)) b = true := by
        intro b hb
        simp
        intro h0
        rw [h0] at hb
        exact hl0 (by simp [hb])
      have hmk : mkLines ((c :: v) :: ls) rest =
          c :: (v ++ 10 :: mkLines ls rest) := by
        simp [mkLines]
      by_cases hca : isalphaB c = true
      · have hc0 : (fun b => decide (b ≠ 0)) c = true := by
          simp
          intro h0
          rw [h0] at hca
          exact absurd hca (by decide)
        have hmem : 10 ∈ (c :: (v ++ 10 :: mkLines ls rest)).takeWhile
            (fun b => decide (b ≠ 0)) := by
          have hall : ∀ b ∈ c :: v, (fun b => decide (b ≠ 0)) b = true := by
            intro b hb
            rcases List.mem_cons.mp hb with hb | hb
            · rw [hb]; exact hc0
            · exact hv0 b hb
          have := mem_takeWhile_append (p := fun b => decide (b ≠ 0))
            (x := 10) (by decide) (c :: v) (mkLines ls rest) hall
          simpa using this
        rw [hmk, parseControl_cons, if_pos ⟨hca, hmem⟩]
        have hvt : (v ++ 10 :: mkLines ls rest).takeWhile
            (fun b => decide (b ≠ 10)) = v :=
          takeWhile_append_false (by decide) v (mkLines ls rest)
            (by intro b hb; simp; intro h10; rw [h10] at hb; exact hv10 hb)
        have hvd : (v ++ 10 :: mkLines ls rest).dropWhile
            (fun b => decide (b ≠ 10)) = 10 :: mkLines ls rest :=
          dropWhile_append_false (by decide) v (mkLines ls rest)
            (by intro b hb; simp; intro h10; rw [h10] at hb; exact hv10 hb)
        rw [hvt, hvd]
        show (c, v) :: parseControl (mkLines ls rest) = _
        rw [ih rest hls hr]
        rw [List.takeWhile_cons, if_pos (by simpa using hca)]
        simp
      · rw [hmk, parseControl_cons, if_neg (by intro hx; exact hca hx.1)]
        rw [List.takeWhile_cons, if_neg (by simpa using hca)]
        simp

end ControlParse

section Claims

theorem sane_of_kept {t : List Nat} (h : ∀ c ∈ t, saneKeep c = true) :
    sane t = t := by
  unfold sane
  rw [takeWhile_all t (by
    intro c hc
    have hk := h c hc
    simp
    intro h0
    rw [h0] at hk
    exact absurd hk (by decide))]
  exact List.filter_eq_self.mpr h

/-- C7: the sanitizer returns its input with exactly the characters outside
`[A-Za-z0-9_-]` removed in order, its result consists only of such
characters, and it is idempotent. -/
theorem sane_sanitizer_spec (s : List Nat) (h : 0 ∉ s) :
    sane s = s.filter saneKeep ∧
    (∀ c ∈ sane s, saneKeep c = true) ∧
    sane (sane s) = sane s := by
  have hkept : ∀ c ∈ sane s, saneKeep c = true := by
    intro c hc
    unfold sane at hc
    exact (List.mem_filter.mp hc).2
  refine ⟨?_, hkept, sane_of_kept hkept⟩
  unfold sane
  rw [takeWhile_all s (by
    intro c hc
    simp
    intro h0
    rw [h0] at hc
    exact h hc)]

/-- Witness for C7 at a concrete name with a slash, a dot and a newline. -/
theorem sane_sanitizer_spec_witness :
    (0 ∉ ([100, 102, 65, 47, 46, 10, 95, 45] : List Nat)) ∧
    (sane [100, 102, 65, 47, 46, 10, 95, 45] =
      List.filter saneKeep [100, 102, 65, 47, 46, 10, 95, 45] ∧
    (∀ c ∈ sane [100, 102, 65, 47, 46, 10, 95, 45], saneKeep c = true) ∧
    sane (sane [100, 102, 65, 47, 46, 10, 95, 45]) =
      sane [100, 102, 65, 47, 46, 10, 95, 45]) :=
  ⟨by decide, sane_sanitizer_spec [100, 102, 65, 47, 46, 10, 95, 45] (by decide)⟩

/-- C6: when the helper is invoked the control file's content is read and the
control file unlinked, a DATAFILE binding carrying the stored data-file name
is exposed first, and the content is scanned line by line, producing one
single-letter binding per line exactly while the line's first character is
alphabetic, stopping at the first line that fails this test. -/
theorem exec_helper_control_bindings :
    (∀ (st : Sess) (cn dn : List Nat) (f : SpoolFile),
      st.fname0 = some cn → st.fname1 = some dn →
      st.fs.find? (fun g => g.name == cn) = some f →
      runHelper st = .done { st with fs := unlinkFs st.fs cn }
        (.helperRun (ctrlEnv f.content dn))) ∧
    (∀ (content dn : List Nat),
      (ctrlEnv content dn).headD ([], []) = (dfVar, dn)) ∧
    (∀ (ls : List (List Nat)) (rest : List Nat),
      (∀ l ∈ ls, 10 ∉ l ∧ 0 ∉ l) → 10 ∉ rest →
      parseControl (mkLines ls rest) =
        (ls.takeWhile (fun l => isalphaB (l.headD 0))).map
          (fun l => (l.headD 0, l.tail))) :=
  ⟨fun _ _ _ _ h0 h1 hf => runHelper_eq h0 h1 hf,
    fun _ _ => rfl, parseControl_lines⟩

/-- Witness for C6: content "Hh\n1x\nPu\n" yields only the binding H=h —
scanning stops at the line starting with the digit 1. -/
theorem exec_helper_control_bindings_witness :
    (∀ l ∈ ([[72, 104], [49, 120], [80, 117]] : List (List Nat)),
      10 ∉ l ∧ 0 ∉ l) ∧
    parseControl (mkLines [[72, 104], [49, 120], [80, 117]] []) =
      [(72, [104])] := by
  refine ⟨by decide, ?_⟩
  rw [exec_helper_control_bindings.2.2 [[72, 104], [49, 120], [80, 117]] []
    (by decide) (by decide)]
  decide

/-- Modelled from the spec's words, for the refinement comparison of C10:
explicit membership semantics for "both files received" — exactly one
control receipt and exactly one data receipt. -/
def bothReceivedSpec (rs : List Nat) : Prop :=
  rs.count 2 = 1 ∧ rs.count 3 = 1

/-- C10: the sum-based completion check (counter starts at 1, adds the
subcommand byte 2 or 3 per receipt, compares with 6) is equivalent to
explicit set membership, and consequently a session with any duplicate
receipt never triggers the helper. -/
theorem spool_sum_equiv_membership :
    (∀ rs : List Nat, (∀ r ∈ rs, r = 2 ∨ r = 3) →
      (1 + rs.sum = 6 ↔ bothReceivedSpec rs)) ∧
    (∀ (cfg : Config) (fs0 : List SpoolFile) (input : List Nat)
      (st : Sess) (env : List (List Nat × List Nat)),
      lpd_main cfg fs0 input = (st, .helperRun env) →
      bothReceivedSpec st.receipts) := by
  constructor
  · intro rs hmem
    unfold bothReceivedSpec
    have := receipts_sum_counts rs hmem
    omega
  · intro cfg fs0 input st env h
    rcases lpd_main_cases cfg fs0 input with hc | ⟨b, hc⟩ | hc | ⟨lr, hr, hc⟩
    · have h2 := congrArg Prod.snd (h.symm.trans hc)
      simp at h2
    · have h2 := congrArg Prod.snd (h.symm.trans hc)
      simp at h2
    · have h2 := congrArg Prod.snd (h.symm.trans hc)
      simp at h2
    · have hrun := hc.symm.trans h
      have HH := (run_helper_exit cfg fs0 lr.2.length lr.2 le_rfl _
        (Inv_init cfg fs0)).2 env (by rw [hrun])
      rw [hrun] at HH
      exact ⟨HH.1, HH.2.1⟩

/-- Witness for C10 at the receipt sequence data-then-control. -/
theorem spool_sum_equiv_membership_witness :
    (∀ r ∈ ([3, 2] : List Nat), r = 2 ∨ r = 3) ∧
    (1 + ([3, 2] : List Nat).sum = 6 ↔ bothReceivedSpec [3, 2]) :=
  ⟨by decide, spool_sum_equiv_membership.1 [3, 2] (by decide)⟩

/-- C8: a declared length over 16 KB on a control-file subcommand aborts the
session with the oversized-file diagnostic before any payload byte is
consumed or file created (the stream and the created-files list are
untouched), while a data-file subcommand with any accepted length proceeds
to the open/transfer phase with no such ceiling. -/
theorem ctrlfile_cap_datafile_uncapped :
    (∀ (cfg : Config) (st : Sess) (line rest : List Nat) (n : Nat),
      subcmdByte line = 2 → st.seen &&& 1 = 0 → 32 ∈ subcmdLine line →
      parseLen (subcmdLenField line) = some n → 16 * 1024 < n →
      handleCmd cfg st line rest =
        .done (cleanup (addMsg { st with seen := st.seen &&& 1 } .tooBig))
          .failure ∧
      (cleanup (addMsg { st with seen := st.seen &&& 1 } .tooBig)).created
        = st.created) ∧
    (∀ (cfg : Config) (st : Sess) (line rest : List Nat) (n : Nat),
      subcmdByte line = 3 → st.seen &&& 2 = 0 → 32 ∈ subcmdLine line →
      parseLen (subcmdLenField line) = some n →
      handleCmd cfg st line rest =
        openAndCopy cfg { st with seen := st.seen &&& 2 } 3 n
          (subcmdFname line) rest) := by
  constructor
  · intro cfg st line rest n hc hs hf hn hbig
    refine ⟨handleCmd_eq_tooBig hc hs hf hn hbig, ?_⟩
    rw [(cleanup_fields _).2.2.2.2.2.2.1]
    simp [addMsg]
  · intro cfg st line rest n hc hs hf hn
    exact handleCmd_eq_datago hc hs hf hn

/-- Witness for C8: the line "\x0220000 a" (declared length 20000) with two
pending payload bytes is rejected as too big. -/
theorem ctrlfile_cap_datafile_uncapped_witness :
    subcmdByte [2, 50, 48, 48, 48, 48, 32, 97] = 2 ∧
    parseLen (subcmdLenField [2, 50, 48, 48, 48, 48, 32, 97]) = some 20000 ∧
    handleCmd (Config.mk true true true) (initSess 1 [])
        [2, 50, 48, 48, 48, 48, 32, 97] [9, 9] =
      .done (cleanup (addMsg
        { initSess 1 [] with seen := (initSess 1 []).seen &&& 1 } .tooBig))
        .failure := by
  refine ⟨by decide, by decide, ?_⟩
  exact (ctrlfile_cap_datafile_uncapped.1 (Config.mk true true true)
    (initSess 1 []) [2, 50, 48, 48, 48, 48, 32, 97] [9, 9] 20000
    (by decide) (by decide) (by decide) (by decide) (by decide)).1

/-- C4: the transfer copies exactly the declared number of bytes and then
reads exactly one acknowledgement byte: a short stream is reported to the
peer with the declared and actual counts and aborts; a missing or non-zero
acknowledgement aborts; on success exactly the declared bytes were written
and the session continues after the single acknowledgement byte; and a job
handed to the helper always has its committed data file's stored length
equal to its declared length. -/
theorem transfer_exact_and_committed_length :
    (∀ (cfg : Config) (st : Sess) (c0 n : Nat) (tgt : Target)
      (rest : List Nat), min n rest.length ≠ n →
      transfer cfg st c0 n tgt rest =
        .done (cleanup (addMsg (writeTarget st tgt
          (rest.take (min n rest.length)))
          (.mismatch n (min n rest.length)))) .failure) ∧
    (∀ (cfg : Config) (st : Sess) (c0 n : Nat) (tgt : Target)
      (rest : List Nat), n ≤ rest.length → rest.drop n = [] →
      transfer cfg st c0 n tgt rest =
        .done (cleanup (writeTarget st tgt (rest.take n))) .failure) ∧
    (∀ (cfg : Config) (st : Sess) (c0 n a : Nat) (tgt : Target)
      (rest r1 : List Nat), n ≤ rest.length → rest.drop n = a :: r1 →
      a ≠ 0 →
      transfer cfg st c0 n tgt rest =
        .done (cleanup (writeTarget st tgt (rest.take n))) .failure) ∧
    (∀ (cfg : Config) (st : Sess) (c0 n : Nat) (tgt : Target)
      (rest r1 : List Nat), rest.drop n = 0 :: r1 →
      transfer cfg st c0 n tgt rest =
        finish cfg (writeTarget st tgt (rest.take n)) c0 tgt r1 ∧
      (rest.take n).length = n) ∧
    (∀ (cfg : Config) (fs0 : List SpoolFile) (input : List Nat) (st : Sess)
      (env : List (List Nat × List Nat)),
      lpd_main cfg fs0 input = (st, .helperRun env) →
      ∃ dn, st.fname1 = some dn ∧ ∃ f ∈ st.fs, f.name = dn ∧
        f.mode600 = true ∧ f.content.length = f.declared) := by
  refine ⟨fun cfg st c0 n tgt rest h => transfer_eq_short h,
    fun cfg st c0 n tgt rest hn hd => transfer_eq_noack hn hd,
    fun cfg st c0 n a tgt rest r1 hn hd ha => transfer_eq_badack hn hd ha,
    fun cfg st c0 n tgt rest r1 hd => ⟨transfer_eq_ok hd, ?_⟩, ?_⟩
  · have := congrArg List.length hd
    simp at this
    simp
    omega
  · intro cfg fs0 input st env h
    rcases lpd_main_cases cfg fs0 input with hc | ⟨b, hc⟩ | hc | ⟨lr, hr, hc⟩
    · have h2 := congrArg Prod.snd (h.symm.trans hc)
      simp at h2
    · have h2 := congrArg Prod.snd (h.symm.trans hc)
      simp at h2
    · have h2 := congrArg Prod.snd (h.symm.trans hc)
      simp at h2
    · have hrun := hc.symm.trans h
      have HH := (run_helper_exit cfg fs0 lr.2.length lr.2 le_rfl _
        (Inv_init cfg fs0)).2 env (by rw [hrun])
      rw [hrun] at HH
      obtain ⟨_, _, _, cn, dn, hcn, hdn, hne, hdncr, f, hf, hfn, hf6, hflen⟩
        := HH
      exact ⟨dn, hdn, f, hf, hfn, hf6, hflen⟩

/-- Witness for C4: declared length 5 against a 3-byte stream reports
"expected 5, got 3" and fails. -/
theorem transfer_exact_and_committed_length_witness :
    min 5 ([1, 2, 3] : List Nat).length ≠ 5 ∧
    transfer (Config.mk true false true) (initSess 0 []) 3 5 .discard
        [1, 2, 3] =
      .done (cleanup (addMsg (writeTarget (initSess 0 []) .discard
        (([1, 2, 3] : List Nat).take (min 5 ([1, 2, 3] : List Nat).length)))
        (.mismatch 5 (min 5 ([1, 2, 3] : List Nat).length)))) .failure :=
  ⟨by decide, transfer_exact_and_committed_length.1 (Config.mk true false true)
    (initSess 0 []) 3 5 .discard [1, 2, 3] (by decide)⟩

/-- C5: end-of-stream while spooling ends the session with EXIT_FAILURE
(after cleanup); end-of-stream in sink mode is the success exit with status
0; EXIT_SUCCESS is only ever produced in sink mode; failure and the sink
open error both carry exit status 1. -/
theorem lpd_exit_codes :
    (∀ (cfg : Config) (st : Sess), st.spooling ≠ 0 →
      step cfg st [] = .done (cleanup (addMsg st .ack)) .failure) ∧
    (∀ (cfg : Config) (st : Sess), st.spooling = 0 →
      step cfg st [] = .done (addMsg st .ack) .success) ∧
    (∀ (cfg : Config) (st : Sess) (input : List Nat),
      (run cfg st input).2 = .success → st.spooling = 0) ∧
    exitCode .success = some 0 ∧ exitCode .failure = some 1 ∧
    exitCode .died = some 1 :=
  ⟨fun _ _ h => step_eq_eof_spool h,
    fun _ _ h => step_eq_eof_sink h,
    fun cfg st input h => run_success_sink cfg input.length input le_rfl st h,
    rfl, rfl, rfl⟩

/-- Witness for C5: end-of-stream in spooling mode with nothing received
exits with failure. -/
theorem lpd_exit_codes_witness :
    (initSess 1 []).spooling ≠ 0 ∧
    step (Config.mk true false true) (initSess 1 []) [] =
      .done (cleanup (addMsg (initSess 1 []) .ack)) .failure := by
  refine ⟨by decide, ?_⟩
  exact lpd_exit_codes.1 (Config.mk true false true) (initSess 1 [])
    (by decide)

/-- C9: in sink mode no queue-directory file is ever created and no job
filename recorded — the directory is exactly as at session start; a control
subcommand's payload is read against fd -1 (discarded, no state change) and
a data subcommand's payload is appended to the sink target opened for
append; writing to the discard descriptor changes nothing, writing to the
sink only appends to it. -/
theorem sink_mode_no_job_files :
    (∀ (cfg : Config) (fs0 : List SpoolFile) (input : List Nat),
      cfg.queueIsDir = false →
      (lpd_main cfg fs0 input).1.fs = fs0 ∧
      (lpd_main cfg fs0 input).1.created = [] ∧
      (lpd_main cfg fs0 input).1.fname0 = none ∧
      (lpd_main cfg fs0 input).1.fname1 = none) ∧
    (∀ (cfg : Config) (st : Sess) (n : Nat) (fname rest : List Nat),
      st.spooling = 0 →
      openAndCopy cfg st 2 n fname rest = transfer cfg st 2 n .discard rest) ∧
    (∀ (cfg : Config) (st : Sess) (n : Nat) (fname rest : List Nat),
      st.spooling = 0 → cfg.sinkExists = true →
      openAndCopy cfg st 3 n fname rest = transfer cfg st 3 n .sinkT rest) ∧
    (∀ (st : Sess) (p : List Nat), writeTarget st .discard p = st) ∧
    (∀ (st : Sess) (p : List Nat),
      writeTarget st .sinkT p = { st with sink := st.sink ++ p }) := by
  refine ⟨?_, fun cfg st n fname rest h => openAndCopy_eq_sinkctrl h,
    fun cfg st n fname rest h hs => openAndCopy_eq_sinkdata h hs,
    fun st p => rfl, fun st p => rfl⟩
  intro cfg fs0 input hq
  rcases lpd_main_cases cfg fs0 input with hc | ⟨b, hc⟩ | hc | ⟨lr, hr, hc⟩
  · rw [hc]
    exact ⟨rfl, rfl, rfl, rfl⟩
  · rw [hc]
    exact ⟨rfl, rfl, rfl, rfl⟩
  · rw [hc]
    exact ⟨rfl, rfl, rfl, rfl⟩
  · rw [hc, show (initSess (if cfg.queueIsDir then 1 else 0) fs0)
      = initSess 0 fs0 by rw [hq]; rfl]
    obtain ⟨rfs, rcr, r0, r1, _⟩ := run_sink_frame cfg lr.2.length lr.2
      le_rfl (initSess 0 fs0) rfl
    exact ⟨by rw [rfs]; rfl, by rw [rcr]; rfl, by rw [r0]; rfl,
      by rw [r1]; rfl⟩

/-- Witness for C9 with a nonempty preexisting queue directory. -/
theorem sink_mode_no_job_files_witness :
    ((Config.mk false false true).queueIsDir = false) ∧
    (lpd_main (Config.mk false false true)
      [SpoolFile.mk [113] 0 [] true] []).1.fs =
      [SpoolFile.mk [113] 0 [] true] :=
  ⟨rfl, (sink_mode_no_job_files.1 (Config.mk false false true)
    [SpoolFile.mk [113] 0 [] true] [] rfl).1⟩

/-- A session that sends the receive-job command for queue q, then the data
subcommand twice (length 1, names a then b, each with payload and zero ack),
then end-of-stream. -/
def demoDataDup : List Nat :=
  [2, 113, 10] ++ [3, 49, 32, 97, 10, 120, 0] ++ [3, 49, 32, 98, 10, 121, 0]

/-- C1 (refuting the claim on the code as written): the second data
subcommand is not rejected — no duplicate diagnostic is emitted, both
receipts complete (`receipts = [3, 3]`), both files are created and the
second one is fully transferred; the `seen &= (s[0] - 1)` slip (lpd.c line
194) keeps `seen` at zero so the duplicate check at line 190 never fires. -/
theorem duplicate_data_not_rejected :
    (lpd_main (Config.mk true false true) [] demoDataDup).1.receipts
      = [3, 3] ∧
    (lpd_main (Config.mk true false true) [] demoDataDup).1.created
      = [[97], [98]] ∧
    Msg.duplicated ∉
      (lpd_main (Config.mk true false true) [] demoDataDup).1.output ∧
    (lpd_main (Config.mk true false true) [] demoDataDup).2 = .failure := by
  have hentry : lpd_main (Config.mk true false true) [] demoDataDup =
      run (Config.mk true false true) (initSess 1 [])
        [3, 49, 32, 97, 10, 120, 0, 3, 49, 32, 98, 10, 121, 0] := rfl
  have h1 : step (Config.mk true false true) (initSess 1 [])
      [3, 49, 32, 97, 10, 120, 0, 3, 49, 32, 98, 10, 121, 0] =
    .cont (Sess.mk 4 0 none (some [97]) [SpoolFile.mk [97] 1 [120] true] []
      [Msg.ack] [[97]] [3] false) [3, 49, 32, 98, 10, 121, 0] := by decide
  have h2 : step (Config.mk true false true)
      (Sess.mk 4 0 none (some [97]) [SpoolFile.mk [97] 1 [120] true] []
        [Msg.ack] [[97]] [3] false) [3, 49, 32, 98, 10, 121, 0] =
    .cont (Sess.mk 7 0 none (some [98])
      [SpoolFile.mk [97] 1 [120] true, SpoolFile.mk [98] 1 [121] true] []
      [Msg.ack, Msg.ack] [[97], [98]] [3, 3] false) [] := by decide
  have h3 : step (Config.mk true false true)
      (Sess.mk 7 0 none (some [98])
        [SpoolFile.mk [97] 1 [120] true, SpoolFile.mk [98] 1 [121] true] []
        [Msg.ack, Msg.ack] [[97], [98]] [3, 3] false) [] =
    .done (Sess.mk 7 0 none (some [98]) [SpoolFile.mk [97] 1 [120] true] []
      [Msg.ack, Msg.ack, Msg.ack] [[97], [98]] [3, 3] false) .failure := by
    decide
  rw [hentry, run_cont h1, run_cont h2, run_done h3]
  exact ⟨rfl, rfl, by decide, rfl⟩

/-- A session that sends the receive-job command for queue q, then the
control subcommand twice (length 1, names a then b, each with payload and
zero ack), then end-of-stream. -/
def demoCtrlDup : List Nat :=
  [2, 113, 10] ++ [2, 49, 32, 97, 10, 120, 0] ++ [2, 49, 32, 98, 10, 121, 0]

/-- C2 (refuting the claim on the code as written): after the duplicate
control receipt (admitted because of the `seen &= ...` slip) overwrites
`filenames[0]`, the error-path cleanup unlinks only the second file — the
session exits with EXIT_FAILURE while the file `a` it created remains in
the queue directory, an orphaned partial job file. -/
theorem orphan_file_after_error :
    (lpd_main (Config.mk true false true) [] demoCtrlDup).2 = .failure ∧
    [97] ∈ (lpd_main (Config.mk true false true) [] demoCtrlDup).1.created ∧
    (lpd_main (Config.mk true false true) [] demoCtrlDup).1.fs =
      [SpoolFile.mk [97] 1 [120] true] := by
  have hentry : lpd_main (Config.mk true false true) [] demoCtrlDup =
      run (Config.mk true false true) (initSess 1 [])
        [2, 49, 32, 97, 10, 120, 0, 2, 49, 32, 98, 10, 121, 0] := rfl
  have h1 : step (Config.mk true false true) (initSess 1 [])
      [2, 49, 32, 97, 10, 120, 0, 2, 49, 32, 98, 10, 121, 0] =
    .cont (Sess.mk 3 0 (some [97]) none [SpoolFile.mk [97] 1 [120] true] []
      [Msg.ack] [[97]] [2] false) [2, 49, 32, 98, 10, 121, 0] := by decide
  have h2 : step (Config.mk true false true)
      (Sess.mk 3 0 (some [97]) none [SpoolFile.mk [97] 1 [120] true] []
        [Msg.ack] [[97]] [2] false) [2, 49, 32, 98, 10, 121, 0] =
    .cont (Sess.mk 5 0 (some [98]) none
      [SpoolFile.mk [97] 1 [120] true, SpoolFile.mk [98] 1 [121] true] []
      [Msg.ack, Msg.ack] [[97], [98]] [2, 2] false) [] := by decide
  have h3 : step (Config.mk true false true)
      (Sess.mk 5 0 (some [98]) none
        [SpoolFile.mk [97] 1 [120] true, SpoolFile.mk [98] 1 [121] true] []
        [Msg.ack, Msg.ack] [[97], [98]] [2, 2] false) [] =
    .done (Sess.mk 5 0 (some [98]) none [SpoolFile.mk [97] 1 [120] true] []
      [Msg.ack, Msg.ack, Msg.ack] [[97], [98]] [2, 2] false) .failure := by
    decide
  rw [hentry, run_cont h1, run_cont h2, run_done h3]
  exact ⟨rfl, by decide, rfl⟩

/-- A complete job for queue q: control file c (length 6, content
"Hh\nPu\n"), data file d (length 1), both acknowledged, then
end-of-stream. -/
def demoComplete : List Nat :=
  [2, 113, 10] ++ [2, 54, 32, 99, 10] ++ [72, 104, 10, 80, 117, 10, 0] ++
    [3, 49, 32, 100, 10, 33, 0]

/-- C3 counterexample: with no helper configured, the received-files state
reaches the completion value 6 yet no helper is ever invoked (the claimed
"if and only if" fails in this direction; the session later ends at
end-of-stream with EXIT_FAILURE). -/
theorem completion_without_helper_cex :
    (lpd_main (Config.mk true false true) [] demoComplete).1.reached6
      = true ∧
    (∀ env, (lpd_main (Config.mk true false true) [] demoComplete).2 ≠
      .helperRun env) := by
  have hentry : lpd_main (Config.mk true false true) [] demoComplete =
      run (Config.mk true false true) (initSess 1 [])
        ([2, 54, 32, 99, 10] ++ [72, 104, 10, 80, 117, 10, 0] ++
          [3, 49, 32, 100, 10, 33, 0]) := rfl
  have h1 : step (Config.mk true false true) (initSess 1 [])
      ([2, 54, 32, 99, 10] ++ [72, 104, 10, 80, 117, 10, 0] ++
        [3, 49, 32, 100, 10, 33, 0]) =
    .cont (Sess.mk 3 0 (some [99]) none
      [SpoolFile.mk [99] 6 [72, 104, 10, 80, 117, 10] true] []
      [Msg.ack] [[99]] [2] false) [3, 49, 32, 100, 10, 33, 0] := by decide
  have h2 : step (Config.mk true false true)
      (Sess.mk 3 0 (some [99]) none
        [SpoolFile.mk [99] 6 [72, 104, 10, 80, 117, 10] true] []
        [Msg.ack] [[99]] [2] false) [3, 49, 32, 100, 10, 33, 0] =
    .cont (Sess.mk 6 0 (some [99]) (some [100])
      [SpoolFile.mk [99] 6 [72, 104, 10, 80, 117, 10] true,
        SpoolFile.mk [100] 1 [33] true] []
      [Msg.ack, Msg.ack] [[99], [100]] [2, 3] true) [] := by decide
  have h3 : step (Config.mk true false true)
      (Sess.mk 6 0 (some [99]) (some [100])
        [SpoolFile.mk [99] 6 [72, 104, 10, 80, 117, 10] true,
          SpoolFile.mk [100] 1 [33] true] []
        [Msg.ack, Msg.ack] [[99], [100]] [2, 3] true) [] =
    .done (Sess.mk 6 0 (some [99]) (some [100]) [] []
      [Msg.ack, Msg.ack, Msg.ack] [[99], [100]] [2, 3] true) .failure := by
    decide
  rw [hentry, run_cont h1, run_cont h2, run_done h3]
  exact ⟨rfl, by intro env hx; simp at hx⟩

/-- C3 (amended): when a helper program is configured, the received-files
state reaches the completion value exactly when the helper is invoked, and
the helper is never invoked unless both job files were committed (both
filenames recorded, distinct, with the data file present and mode 0600). -/
theorem completion_iff_helper (cfg : Config) (fs0 : List SpoolFile)
    (input : List Nat) (hh : cfg.helper = true) :
    ((lpd_main cfg fs0 input).1.reached6 = true ↔
      ∃ env, (lpd_main cfg fs0 input).2 = .helperRun env) ∧
    (∀ env, (lpd_main cfg fs0 input).2 = .helperRun env →
      ∃ cn dn, (lpd_main cfg fs0 input).1.fname0 = some cn ∧
        (lpd_main cfg fs0 input).1.fname1 = some dn ∧ cn ≠ dn ∧
        ∃ f ∈ (lpd_main cfg fs0 input).1.fs,
          f.name = dn ∧ f.mode600 = true) := by
  rcases lpd_main_cases cfg fs0 input with hc | ⟨b, hc⟩ | hc | ⟨lr, hr, hc⟩
  · rw [hc]
    refine ⟨⟨fun hx => absurd hx (by simp [initSess]), ?_⟩, ?_⟩
    · rintro ⟨env, hx⟩
      simp at hx
    · intro env hx
      simp at hx
  · rw [hc]
    refine ⟨⟨fun hx => absurd hx (by simp [addMsg, initSess]), ?_⟩, ?_⟩
    · rintro ⟨env, hx⟩
      simp at hx
    · intro env hx
      simp at hx
  · rw [hc]
    refine ⟨⟨fun hx => absurd hx (by simp [initSess]), ?_⟩, ?_⟩
    · rintro ⟨env, hx⟩
      simp at hx
    · intro env hx
      simp at hx
  · rw [hc]
    constructor
    · exact run_reached6_iff cfg fs0 lr.2.length lr.2 le_rfl _
        (Inv_init cfg fs0) hh rfl
    · intro env hx
      obtain ⟨_, _, _, cn, dn, h0, h1, hne, _, f, hf, hfn, hf6, _⟩ :=
        (run_helper_exit cfg fs0 lr.2.length lr.2 le_rfl _
          (Inv_init cfg fs0)).2 env hx
      exact ⟨cn, dn, h0, h1, hne, f, hf, hfn, hf6⟩

/-- Witness for the amended C3 at a helper-configured session whose stream
is immediately at end-of-stream. -/
theorem completion_iff_helper_witness :
    ((Config.mk true true true).helper = true) ∧
    ((lpd_main (Config.mk true true true) [] []).1.reached6 = true ↔
      ∃ env, (lpd_main (Config.mk true true true) [] []).2 =
        .helperRun env) :=
  ⟨rfl, (completion_iff_helper (Config.mk true true true) [] [] rfl).1⟩

end Claims

end Lpd
